import Mathlib

/-!
# Verification of the inspection reconciliation engine (vila-app-back)

Shallow embedding of the reconciliation / checklist-upsert code of
`src/app/main.py` and proofs of the frozen claims about it.

Conventions of the embedding:

* The remote record store (Supabase REST) is modelled as explicit state:
  `Store` holds the mission and task rows of one date-keyed kind (exit or
  cleaning), `MStore` those of the monthly kind.
* Python values that may be a bool, a string or `None` (the `completed`
  column and payload fields) are modelled by `PVal`.
* Python string helpers are modelled directly over character lists
  (`pyStrip` is `str.strip()`, `pyJoin` is `sep.join`, `pyLower` is
  `str.lower()` for the ASCII inputs that occur here, `replaceSpaceDash`
  is `.replace(' ', '-')`).
* The background-sync functions (`sync_inspections_with_orders` etc.) are
  modelled in their fault-free execution (every remote call returns its
  success status); the two interactive endpoints
  (`POST /api/inspections` and `PATCH .../tasks/{task_id}`) are modelled
  against an explicit schedule `Env : Nat → CallRes` giving the outcome of
  each remote call in issue order, so partial-failure behaviour is covered.
* Every remote mutation is recorded in an operation trace (`Op`); the
  endpoint models additionally record reads.
-/

/-- A Python value as it appears in the JSON payloads / rows: a strict
boolean, a string, or `null`. -/
inductive PVal where
  | pbool (b : Bool)
  | pstr (s : String)
  | pnull
deriving DecidableEq, Repr

/-- Python truthiness of a `PVal` (`bool(x)`): non-empty strings are truthy,
`None` is falsy. -/
def pyTruthy : PVal → Bool
  | PVal.pbool b => b
  | PVal.pstr s => s ≠ ""
  | PVal.pnull => false

/-- ASCII `str.lower()` (the strings compared in the source are ASCII). -/
def pyLower (s : String) : String :=
  String.mk (s.toList.map Char.toLower)

/-- List-level `str.strip(chars)`: drop characters satisfying `p` from both
ends. -/
def stripList (p : Char → Bool) (l : List Char) : List Char :=
  ((l.dropWhile p).reverse.dropWhile p).reverse

/-- Python `str.strip()` — remove whitespace from both ends. -/
def pyStrip (s : String) : String :=
  String.mk (stripList Char.isWhitespace s.toList)

/-- Python `str.strip(chars)` for an explicit character set. -/
def pyStripChars (cs : List Char) (s : String) : String :=
  String.mk (stripList (fun c => c ∈ cs) s.toList)

/-- Python `sep.join(l)`. -/
def pyJoin (sep : String) : List String → String
  | [] => ""
  | [s] => s
  | s :: rest => s ++ sep ++ pyJoin sep rest

/-- Contiguous-sublist test used to model Python substring containment. -/
def listInfix (needle : List Char) : List Char → Bool
  | [] => needle.isEmpty
  | c :: rest => needle.isPrefixOf (c :: rest) || listInfix needle rest

/-- Python substring containment `needle in hay`. -/
def strContains (hay needle : String) : Bool :=
  listInfix needle.toList hay.toList

/-- Normalisation of a payload `completed` value to a strict boolean, as
performed by `create_inspection` (src/app/main.py lines 1417-1424):
strings are lowered and compared against "true"/"1"/"yes"/"on", `None`
and a missing field give `false`, booleans pass through. -/
def normalizeCompleted : Option PVal → Bool
  | none => false
  | some (PVal.pstr s) =>
      let t := pyLower s
      t = "true" || t = "1" || t = "yes" || t = "on"
  | some PVal.pnull => false
  | some (PVal.pbool b) => b

/-- A row of the external `orders` table (the Booking of the spec). An
absent/null `departure_date` is modelled as `""`. -/
structure Order where
  id : String
  departureDate : String
  unitNumber : String
  guestName : String
  status : String
deriving DecidableEq, Repr

/-- A row of the `inspections` (or `cleaning_inspections`) table. -/
structure Inspection where
  id : String
  orderId : String
  unitNumber : String
  guestName : String
  departureDate : String
  status : String
deriving DecidableEq, Repr

/-- A row of the `inspection_tasks` (or `cleaning_inspection_tasks`,
`monthly_inspection_tasks`) table.  The stored `completed` column is a
`PVal` because the single-task endpoint can write unnormalised values. -/
structure ITask where
  id : String
  inspectionId : String
  name : String
  completed : PVal
deriving DecidableEq, Repr

/-- The slice of the remote store one inspection kind works against. -/
structure Store where
  inspections : List Inspection
  tasks : List ITask
deriving DecidableEq, Repr

/-- A row of the `monthly_inspections` table. -/
structure MonthlyInspection where
  id : String
  unitNumber : String
  inspectionMonth : String
  status : String
deriving DecidableEq, Repr

/-- The slice of the remote store the monthly sync works against. -/
structure MStore where
  inspections : List MonthlyInspection
  tasks : List ITask
deriving DecidableEq, Repr

/-- One remote-store operation, as issued by the engine.  Mutations are
always recorded; the endpoint models also record their reads. -/
inductive Op where
  | getMission (iid : String)
  | postMission (row : Inspection)
  | patchMission (iid : String) (fields : List (String × String))
  | deleteMission (iid : String)
  | getTasks (iid : String)
  | getTask (tid iid : String)
  | postTask (row : ITask)
  | patchTask (tid iid : String) (name : Option String) (completed : Option PVal)
  | deleteTask (tid iid : String)
  | postMonthly (row : MonthlyInspection)
  | deleteMonthly (iid : String)
deriving DecidableEq, Repr

/-- Mutating task operations (insert/update/delete on a task table). -/
def Op.isTaskWrite : Op → Bool
  | Op.postTask _ => true
  | Op.patchTask _ _ _ _ => true
  | Op.deleteTask _ _ => true
  | _ => false

/-- Any task-table operation, reads included. -/
def Op.isTaskOp : Op → Bool
  | Op.getTasks _ => true
  | Op.getTask _ _ => true
  | o => o.isTaskWrite

/-- Task deletions. -/
def Op.isTaskDelete : Op → Bool
  | Op.deleteTask _ _ => true
  | _ => false

example : pyStrip "  a b  " = "a b" := by decide
example : pyJoin ", " ["Alice", "Bob"] = "Alice, Bob" := by decide
example : normalizeCompleted (some (PVal.pstr "YeS")) = true := by decide
example : normalizeCompleted (some (PVal.pstr "false")) = false := by decide
example : strContains "Alice, Bob" "Bob" = true := by decide

/-- An entry of a Default Template Registry list. -/
structure TemplateTask where
  id : String
  name : String
deriving DecidableEq, Repr

/-- `DEFAULT_INSPECTION_TASKS` (exit inspections, 24 tasks). -/
def DEFAULT_INSPECTION_TASKS : List TemplateTask := [
  ⟨"1", "לשים כלור בבריכה"⟩,
  ⟨"2", "להוסיף מים בבריכה"⟩,
  ⟨"3", "לנקות רובוט ולהפעיל"⟩,
  ⟨"4", "לנקות רשת פנים המנוע"⟩,
  ⟨"5", "לעשות בקווש שטיפה לפילטר"⟩,
  ⟨"6", "לטאטא הבק מהמדרגות ומשטחי רביצה"⟩,
  ⟨"7", "לשים כלור בגקוזי"⟩,
  ⟨"8", "להוסיף מים בגקוזי"⟩,
  ⟨"9", "לנקות רובוט גקוזי ולהפעיל"⟩,
  ⟨"10", "לנקות רשת פנים המנוע גקוזי"⟩,
  ⟨"11", "לעשות בקווש שטיפה לפילטר גקוזי"⟩,
  ⟨"12", "לטאטא הבק מהמדרגות ומשטחי רביצה גקוזי"⟩,
  ⟨"13", "ניקיון חדרים"⟩,
  ⟨"14", "ניקיון מטבח"⟩,
  ⟨"15", "ניקיון שירותים"⟩,
  ⟨"16", "פינוי זבל לפח אשפה פנים וחוץ הוילה"⟩,
  ⟨"17", "בדיקת מכשירים"⟩,
  ⟨"18", "בדיקת מצב ריהוט"⟩,
  ⟨"19", "החלפת מצעים"⟩,
  ⟨"20", "החלפת מגבות"⟩,
  ⟨"21", "בדיקת מלאי"⟩,
  ⟨"22", "לבדוק תקינות חדרים"⟩,
  ⟨"23", "כיבוי אורות פנים וחוץ הוילה"⟩,
  ⟨"24", "לנעול דלת ראשית"⟩]

/-- `DEFAULT_CLEANING_INSPECTION_TASKS` (cleaning inspections, 31 tasks). -/
def DEFAULT_CLEANING_INSPECTION_TASKS : List TemplateTask := [
  ⟨"1", "מכונת קפה, לנקות ולהחליף פילטר קפה"⟩,
  ⟨"2", "קפה תה סוכר וכו׳"⟩,
  ⟨"3", "להעביר סמרטוט במתקן מים"⟩,
  ⟨"4", "מקרר – בפנים ובחוץ"⟩,
  ⟨"5", "תנור – בפנים ובחוץ"⟩,
  ⟨"6", "כיריים וגריל"⟩,
  ⟨"7", "מיקרו"⟩,
  ⟨"8", "כיור"⟩,
  ⟨"9", "כלים – לשטוף ליבש ולהחזיר לארון"⟩,
  ⟨"10", "לבדוק שכל הכלים נקיים"⟩,
  ⟨"11", "לבדוק שיש לפחות 20 כוסות אוכל מכל דבר"⟩,
  ⟨"12", "ארונות מטבח – לפתוח ולראות שאין דברים להוציא דברים לא קשורים"⟩,
  ⟨"13", "להעביר סמרטוט על הדלתות מטבח בחוץ"⟩,
  ⟨"14", "להעביר סמרטוט על הפח ולראות שנקי"⟩,
  ⟨"15", "פלטת שבת ומיחם מים חמים – לראות שאין אבן"⟩,
  ⟨"16", "סכו״ם, כלים, סמרטוט, סקוֹץ׳ חדשים לאורחים"⟩,
  ⟨"17", "סבון"⟩,
  ⟨"18", "סלון שטיפה יסודית גם מתחת לספות ולשולחן, להזיז כורסאות ולבדוק שאין פירורים של אוכל"⟩,
  ⟨"19", "שולחן אוכל וספסלים (לנקות בשפריצר ולהעביר סמרטוט)"⟩,
  ⟨"20", "סלון – לנגב אבק ולהעביר סמרטוט גם על הספה. כיריות לנקות לסדר יפה"⟩,
  ⟨"21", "שולחן אוכל וספסלים – להעביר סמרטוט נקי עם תריס"⟩,
  ⟨"22", "חלונות ותריסים – עם ספריי חלונות וסמרטוט נקי. שלא יהיו סימנים. מסילות לנקות"⟩,
  ⟨"23", "מסדרון – לנגב בחוץ שטיחים. לנקות מסילות בחלונות. לנקות חלונות"⟩,
  ⟨"24", "טיפול ברזים וניקוי"⟩,
  ⟨"25", "להשקות עציצים בכל המתחם"⟩,
  ⟨"26", "פינת מנגל – לרוקן פחים ולנקות רשת, וכל אזור המנגל"⟩,
  ⟨"27", "לנקות דשא ולסדר פינות ישיבה"⟩,
  ⟨"28", "שולחן חוץ – להעביר סמרטוט עם חומר. כיסאות נקיים"⟩,
  ⟨"29", "שטיפה לרצפה בחוץ"⟩,
  ⟨"30", "לרוקן את הפחים, לשים שקית חדשה"⟩,
  ⟨"31", "להעביר סמרטוט על הפחים ולשים שקיות"⟩]

/-- `DEFAULT_MONTHLY_INSPECTION_TASKS` (monthly inspections, 20 tasks). -/
def DEFAULT_MONTHLY_INSPECTION_TASKS : List TemplateTask := [
  ⟨"1", "בדיקת תקינות מערכות חשמל"⟩,
  ⟨"2", "בדיקת תקינות מערכות מים"⟩,
  ⟨"3", "בדיקת תקינות מערכות גז"⟩,
  ⟨"4", "בדיקת תקינות מזגנים"⟩,
  ⟨"5", "בדיקת תקינות דודי שמש"⟩,
  ⟨"6", "בדיקת תקינות מערכות אבטחה"⟩,
  ⟨"7", "בדיקת תקינות מערכות תאורה"⟩,
  ⟨"8", "בדיקת תקינות דלתות וחלונות"⟩,
  ⟨"9", "בדיקת תקינות ריהוט וציוד"⟩,
  ⟨"10", "בדיקת תקינות מערכות ניקוז"⟩,
  ⟨"11", "בדיקת תקינות מערכות אוורור"⟩,
  ⟨"12", "בדיקת תקינות מערכות כיבוי אש"⟩,
  ⟨"13", "בדיקת תקינות מערכות אינטרנט"⟩,
  ⟨"14", "בדיקת תקינות מערכות טלוויזיה"⟩,
  ⟨"15", "בדיקת תקינות מערכות מיזוג"⟩,
  ⟨"16", "בדיקת תקינות מערכות מים חמים"⟩,
  ⟨"17", "בדיקת תקינות מערכות תאורה חוץ"⟩,
  ⟨"18", "בדיקת תקינות מערכות השקיה"⟩,
  ⟨"19", "בדיקת תקינות מערכות בריכה"⟩,
  ⟨"20", "בדיקת תקינות מערכות גקוזי"⟩]

/-- The fixed unit roster `UNIT_NAMES` of `sync_monthly_inspections`. -/
def UNIT_NAMES : List String := [
  "צימרים כלנית ריזורט",
  "וילה ויקטוריה",
  "וילה כלנית",
  "וילה ממלכת אהרון",
  "וילה בוטיק אהרון",
  "וילה אירופה",
  "וילאה 1",
  "וילאה 2",
  "לה כינרה",
  "הודולה 1",
  "הודולה 2",
  "הודולה 3",
  "הודולה 4",
  "הודולה 5",
  "בית קונפיטה"]

/-- The default workflow status given to every newly created mission. -/
def DEFAULT_STATUS : String := "זמן הביקורות טרם הגיע"

/-- The cancelled order status. -/
def CANCELLED : String := "בוטל"

/-!
## Key Deriver: grouping active orders by departure date

Models the eligibility filter and grouping loop shared by
`sync_inspections_with_orders` (lines 713-723) and
`sync_cleaning_inspections_with_orders` (lines 1049-1066): an order
contributes iff its departure date is set, its status is not cancelled,
and its stripped unit number and guest name are non-empty.  Groups keep
dict insertion order; members keep encounter order.
-/

/-- The Booking eligibility predicate of both date-keyed sync loops. -/
def eligibleOrder (o : Order) : Bool :=
  decide (o.departureDate ≠ "") && decide (o.status ≠ CANCELLED) &&
  decide (pyStrip o.unitNumber ≠ "") && decide (pyStrip o.guestName ≠ "")

/-- Append an order to its date group, preserving dict insertion order. -/
def addToGroup (gs : List (String × List Order)) (d : String) (o : Order) :
    List (String × List Order) :=
  match gs with
  | [] => [(d, [o])]
  | (k, os) :: rest =>
      if k = d then (k, os ++ [o]) :: rest else (k, os) :: addToGroup rest d o

/-- Worker of `ordersByDate`, folding the orders in store return order. -/
def ordersByDateAux (acc : List (String × List Order)) :
    List Order → List (String × List Order)
  | [] => acc
  | o :: rest =>
      if eligibleOrder o then ordersByDateAux (addToGroup acc o.departureDate o) rest
      else ordersByDateAux acc rest

/-- The `orders_by_date` dict: date groups of eligible orders, insertion
ordered. -/
def ordersByDate (orders : List Order) : List (String × List Order) :=
  ordersByDateAux [] orders

/-!
## Store primitives (fault-free semantics)

Inserts conflict on the row key (`id` for missions, `(id, inspection_id)`
for tasks, per the scoped sub-resource interface of the store); a
conflicting insert is a no-op, which the source treats as success (409).
Updates and deletes touch exactly the rows matching their filter.
-/

/-- POST of a mission row: no-op on id conflict (409 treated as success). -/
def insertInspection (st : Store) (row : Inspection) : Store :=
  if st.inspections.any (fun r => r.id == row.id) then st
  else { st with inspections := st.inspections ++ [row] }

/-- POST of a task row: no-op on `(id, inspection_id)` conflict. -/
def insertTaskRow (st : Store) (row : ITask) : Store :=
  if st.tasks.any (fun r => r.id == row.id && r.inspectionId == row.inspectionId) then st
  else { st with tasks := st.tasks ++ [row] }

/-- Apply one JSON field of a mission PATCH body. -/
def applyMissionField (r : Inspection) : String × String → Inspection
  | ("id", v) => { r with id := v }
  | ("order_id", v) => { r with orderId := v }
  | ("unit_number", v) => { r with unitNumber := v }
  | ("guest_name", v) => { r with guestName := v }
  | ("departure_date", v) => { r with departureDate := v }
  | ("status", v) => { r with status := v }
  | _ => r

/-- Apply a mission PATCH body. -/
def applyMissionFields (r : Inspection) (fs : List (String × String)) : Inspection :=
  fs.foldl applyMissionField r

/-- PATCH `inspections?id=eq.{iid}` with the given body. -/
def patchInspection (st : Store) (iid : String) (fs : List (String × String)) : Store :=
  { st with inspections :=
      st.inspections.map (fun r => if r.id = iid then applyMissionFields r fs else r) }

/-- DELETE `…?id=eq.{iid}` on a mission table. -/
def deleteInspection (st : Store) (iid : String) : Store :=
  { st with inspections := st.inspections.filter (fun r => decide (r.id ≠ iid)) }

/-- Seed the default template tasks of a fresh mission: one POST per
template entry, each with `completed := false`, conflicts ignored. -/
def seedTasks (iid : String) (st : Store) : List TemplateTask → Store × List Op
  | [] => (st, [])
  | t :: rest =>
      let row : ITask := ⟨t.id, iid, t.name, PVal.pbool false⟩
      let r2 := seedTasks iid (insertTaskRow st row) rest
      (r2.1, Op.postTask row :: r2.2)

/-!
## Per-date mission creation / descriptive update

`create_inspection_for_departure_date` (src/app/main.py lines 793-898) and
its cleaning twin (lines 900-1005), in fault-free execution.
-/

/-- The merged guest value of the update branch (lines 827-832): append the
new guest unless it is already a substring, then strip ", " from the
ends. -/
def mergedGuestName (existingGuests guest : String) : String :=
  if strContains existingGuests guest then existingGuests
  else pyStripChars [',', ' '] (existingGuests ++ ", " ++ guest)

/-- The partial-update body built for an existing mission whose descriptive
fields changed (lines 822-832): only `unit_number` and/or `guest_name`. -/
def updateFieldsFor (existing : Inspection) (unit guest : String) :
    List (String × String) :=
  (if existing.unitNumber ≠ unit then [("unit_number", unit)] else []) ++
  (if existing.guestName ≠ guest then
    [("guest_name", mergedGuestName existing.guestName guest)] else [])

/-- `create_inspection_for_departure_date` (exit kind). -/
def create_inspection_for_departure_date
    (departureDate orderId unitNumber guestName : String) (st : Store) :
    Store × List Op :=
  if departureDate = "" then (st, [])
  else if unitNumber = "" ∨ pyStrip unitNumber = "" ∨ guestName = "" ∨ pyStrip guestName = ""
  then (st, [])
  else
    match st.inspections.filter (fun r => r.departureDate == departureDate) with
    | existing :: _ =>
        if existing.unitNumber ≠ unitNumber ∨ existing.guestName ≠ guestName then
          let upd := updateFieldsFor existing unitNumber guestName
          if upd ≠ [] then
            (patchInspection st existing.id upd, [Op.patchMission existing.id upd])
          else (st, [])
        else (st, [])
    | [] =>
        let iid := "INSP-" ++ departureDate
        let row : Inspection :=
          ⟨iid, orderId, unitNumber, guestName, departureDate, DEFAULT_STATUS⟩
        let r2 := seedTasks iid (insertInspection st row) DEFAULT_INSPECTION_TASKS
        (r2.1, Op.postMission row :: r2.2)

/-- `create_cleaning_inspection_for_departure_date` (cleaning kind): same
shape with the `CLEAN-` id and the cleaning template. -/
def create_cleaning_inspection_for_departure_date
    (departureDate orderId unitNumber guestName : String) (st : Store) :
    Store × List Op :=
  if departureDate = "" then (st, [])
  else if unitNumber = "" ∨ pyStrip unitNumber = "" ∨ guestName = "" ∨ pyStrip guestName = ""
  then (st, [])
  else
    match st.inspections.filter (fun r => r.departureDate == departureDate) with
    | existing :: _ =>
        if existing.unitNumber ≠ unitNumber ∨ existing.guestName ≠ guestName then
          let upd := updateFieldsFor existing unitNumber guestName
          if upd ≠ [] then
            (patchInspection st existing.id upd, [Op.patchMission existing.id upd])
          else (st, [])
        else (st, [])
    | [] =>
        let iid := "CLEAN-" ++ departureDate
        let row : Inspection :=
          ⟨iid, orderId, unitNumber, guestName, departureDate, DEFAULT_STATUS⟩
        let r2 := seedTasks iid (insertInspection st row) DEFAULT_CLEANING_INSPECTION_TASKS
        (r2.1, Op.postMission row :: r2.2)

/-!
## Reconciliation passes (fault-free execution)
-/

/-- Guest-name join of `sync_inspections_with_orders` (lines 734-739): all
stripped non-empty guest names of the date group, encounter order, joined
with ", " — no de-duplication. -/
def exitGuestJoin (os : List Order) : String :=
  pyJoin ", " ((os.map (fun o => pyStrip o.guestName)).filter (fun g => g ≠ ""))

/-- The `existing_dates` set: departure dates of the snapshot rows, empty
dates excluded (line 726). -/
def existingDatesOf (rows : List Inspection) : List String :=
  (rows.map (fun r => r.departureDate)).filter (fun d => d ≠ "")

/-- Creation loop of `sync_inspections_with_orders` (lines 730-740): one
`create_inspection_for_departure_date` call per date group absent from the
snapshot dates, on the live store. -/
def createPhaseExit (existingDates : List String) :
    List (String × List Order) → Store → Store × List Op
  | [], st => (st, [])
  | (d, os) :: gs, st =>
      if d ∈ existingDates then createPhaseExit existingDates gs st
      else
        let r1 :=
          match os with
          | [] => (st, ([] : List Op))
          | o :: _ =>
              create_inspection_for_departure_date d o.id (pyStrip o.unitNumber)
                (exitGuestJoin os) st
        let r2 := createPhaseExit existingDates gs r1.1
        (r2.1, r1.2 ++ r2.2)

/-- Orphan-removal loop shared by both date-keyed syncs (lines 742-757 and
1104-1119): iterate the snapshot, delete by id every row whose non-empty
date has no order group. -/
def deletePhase (desired : List String) : List Inspection → Store → Store × List Op
  | [], st => (st, [])
  | r :: rows, st =>
      if r.departureDate ≠ "" ∧ r.departureDate ∉ desired then
        let r2 := deletePhase desired rows (deleteInspection st r.id)
        (r2.1, Op.deleteMission r.id :: r2.2)
      else deletePhase desired rows st

/-- `sync_inspections_with_orders` (lines 684-762, fault-free): group the
eligible orders by date, create missions for missing dates, then delete
missions whose date has no orders. -/
def sync_inspections_with_orders (orders : List Order) (st : Store) :
    Store × List Op :=
  let groups := ordersByDate orders
  let snapshot := st.inspections
  let r1 := createPhaseExit (existingDatesOf snapshot) groups st
  let r2 := deletePhase (groups.map Prod.fst) snapshot r1.1
  (r2.1, r1.2 ++ r2.2)

/-- Guest name passed by the cleaning creation loop (lines 1091-1100): the
first order's stripped guest, or for a multi-order group the join of
`set(guest_names)`.  CPython set iteration order is unspecified, so the
enumeration of the set is a parameter `pySet`. -/
def cleaningGuestJoin (pySet : List String → List String) : List Order → String
  | [] => ""
  | o :: rest =>
      if rest = [] then pyStrip o.guestName
      else pyJoin ", "
        (pySet (((o :: rest).map (fun x => pyStrip x.guestName)).filter (fun g => g ≠ "")))

/-- Creation loop of `sync_cleaning_inspections_with_orders`
(lines 1085-1102). -/
def createPhaseCleaning (pySet : List String → List String)
    (existingDates : List String) :
    List (String × List Order) → Store → Store × List Op
  | [], st => (st, [])
  | (d, os) :: gs, st =>
      if d ∈ existingDates then createPhaseCleaning pySet existingDates gs st
      else
        let r1 :=
          match os with
          | [] => (st, ([] : List Op))
          | o :: _ =>
              create_cleaning_inspection_for_departure_date d o.id
                (pyStrip o.unitNumber) (cleaningGuestJoin pySet os) st
        let r2 := createPhaseCleaning pySet existingDates gs r1.1
        (r2.1, r1.2 ++ r2.2)

/-- `sync_cleaning_inspections_with_orders` (lines 1032-1123, fault-free). -/
def sync_cleaning_inspections_with_orders (pySet : List String → List String)
    (orders : List Order) (st : Store) : Store × List Op :=
  let groups := ordersByDate orders
  let snapshot := st.inspections
  let r1 := createPhaseCleaning pySet (existingDatesOf snapshot) groups st
  let r2 := deletePhase (groups.map Prod.fst) snapshot r1.1
  (r2.1, r1.2 ++ r2.2)

/-- `update_inspection_for_departure_date` (lines 764-791): on a date
change the old exit mission is left for the sync to clean up; the new date
is created/updated. -/
def update_inspection_for_departure_date
    (_oldDate newDate orderId unitNumber guestName : String) (st : Store) :
    Store × List Op :=
  if newDate = "" then (st, [])
  else create_inspection_for_departure_date newDate orderId unitNumber guestName st

/-- `update_cleaning_inspection_for_departure_date` (lines 1007-1030): on a
date change the old cleaning mission `CLEAN-{old}` is deleted outright,
then the new date is created/updated. -/
def update_cleaning_inspection_for_departure_date
    (oldDate newDate orderId unitNumber guestName : String) (st : Store) :
    Store × List Op :=
  if newDate = "" then (st, [])
  else
    let r1 :=
      if oldDate ≠ "" ∧ oldDate ≠ newDate then
        (deleteInspection st ("CLEAN-" ++ oldDate), [Op.deleteMission ("CLEAN-" ++ oldDate)])
      else (st, ([] : List Op))
    let r2 :=
      create_cleaning_inspection_for_departure_date newDate orderId unitNumber guestName r1.1
    (r2.1, r1.2 ++ r2.2)

/-!
## Monthly reconciliation

`sync_monthly_inspections` (lines 4406-4559).  The two month keys (first
day of the current and of the next calendar month, ISO formatted) come
from `date.today()`, an external input, so the model takes them as
parameters `m1 m2`.
-/

/-- Python `.replace(' ', '-')` on the unit name. -/
def replaceSpaceDash (s : String) : String :=
  String.mk (s.toList.map (fun c => if c = ' ' then '-' else c))

/-- The deterministic monthly mission id (line 4478). -/
def monthlyId (unit month : String) : String :=
  "MONTHLY-" ++ replaceSpaceDash unit ++ "-" ++ month

/-- The `existing_keys` set (lines 4462-4467): `(stripped unit, month)` of
every snapshot row with both fields non-empty. -/
def monthlyKeysOf (rows : List MonthlyInspection) : List (String × String) :=
  (rows.filter (fun r => decide (pyStrip r.unitNumber ≠ "") && decide (r.inspectionMonth ≠ "")))
    |>.map (fun r => (pyStrip r.unitNumber, r.inspectionMonth))

/-- The nested hotel × month iteration order (lines 4471-4472). -/
def monthlyPairs (m1 m2 : String) : List (String × String) :=
  UNIT_NAMES.flatMap (fun u => [(u, m1), (u, m2)])

/-- POST of a monthly task row (conflict on `(id, inspection_id)` is a
no-op, status 409 accepted by line 4511). -/
def insertTaskRowM (st : MStore) (row : ITask) : MStore :=
  if st.tasks.any (fun r => r.id == row.id && r.inspectionId == row.inspectionId) then st
  else { st with tasks := st.tasks ++ [row] }

/-- Seed the 20 monthly template tasks of a freshly created monthly
mission (lines 4497-4514). -/
def seedTasksM (iid : String) (st : MStore) : List TemplateTask → MStore × List Op
  | [] => (st, [])
  | t :: rest =>
      let row : ITask := ⟨t.id, iid, t.name, PVal.pbool false⟩
      let r2 := seedTasksM iid (insertTaskRowM st row) rest
      (r2.1, Op.postTask row :: r2.2)

/-- Creation loop of `sync_monthly_inspections` (lines 4469-4532): for each
roster key missing from the snapshot keys, POST the mission; only on a
successful create (no id conflict) are the default tasks seeded — a 409
skips seeding. -/
def createPhaseMonthly (existingKeys : List (String × String)) :
    List (String × String) → MStore → MStore × List Op
  | [], st => (st, [])
  | (u, m) :: ps, st =>
      if (u, m) ∈ existingKeys then createPhaseMonthly existingKeys ps st
      else
        let iid := monthlyId u m
        let row : MonthlyInspection := ⟨iid, u, m, DEFAULT_STATUS⟩
        if st.inspections.any (fun r => r.id == iid) then
          let r2 := createPhaseMonthly existingKeys ps st
          (r2.1, Op.postMonthly row :: r2.2)
        else
          let st1 : MStore := { st with inspections := st.inspections ++ [row] }
          let rSeed := seedTasksM iid st1 DEFAULT_MONTHLY_INSPECTION_TASKS
          let r2 := createPhaseMonthly existingKeys ps rSeed.1
          (r2.1, Op.postMonthly row :: (rSeed.2 ++ r2.2))

/-- Removal loop of `sync_monthly_inspections` (lines 4534-4550): delete by
id every snapshot row whose non-empty month is neither current nor next. -/
def deletePhaseMonthly (monthsToKeep : List String) :
    List MonthlyInspection → MStore → MStore × List Op
  | [], st => (st, [])
  | r :: rows, st =>
      if r.inspectionMonth ≠ "" ∧ r.inspectionMonth ∉ monthsToKeep then
        let st1 : MStore :=
          { st with inspections := st.inspections.filter (fun x => decide (x.id ≠ r.id)) }
        let r2 := deletePhaseMonthly monthsToKeep rows st1
        (r2.1, Op.deleteMonthly r.id :: r2.2)
      else deletePhaseMonthly monthsToKeep rows st

/-- `sync_monthly_inspections` (fault-free), with the two ISO month
strings supplied externally. -/
def sync_monthly_inspections (m1 m2 : String) (st : MStore) : MStore × List Op :=
  let snapshot := st.inspections
  let r1 := createPhaseMonthly (monthlyKeysOf snapshot) (monthlyPairs m1 m2) st
  let r2 := deletePhaseMonthly [m1, m2] snapshot r1.1
  (r2.1, r1.2 ++ r2.2)

/-!
## Remote-call outcome schedule for the interactive endpoints

Each remote call of `create_inspection` / `update_inspection_task` is
numbered in issue order; `Env` gives its outcome: an HTTP status code, a
raised `requests.exceptions.HTTPError` (carrying an optional response
status), or any other raised exception.  Store effects happen exactly on
success statuses.
-/

/-- Outcome of one remote call. -/
inductive CallRes where
  | status (n : Nat)
  | httpErr (code : Option Nat)
  | exn
deriving DecidableEq, Repr

/-- Outcome schedule, by call index. -/
abbrev Env := Nat → CallRes

/-- Supply of `str(uuid.uuid4())` results, by generation index. -/
abbrev Uuids := Nat → String

/-- Statuses the source accepts for a PATCH (`[200, 201, 204]`). -/
def successPatchCode (n : Nat) : Bool := n == 200 || n == 201 || n == 204

/-- Statuses the source accepts for a POST (`[200, 201]`). -/
def successPostCode (n : Nat) : Bool := n == 200 || n == 201

/-- Python `a or dflt` for an optional string field (absent and `""` are
falsy). -/
def pyGetStr (v : Option String) (dflt : String) : String :=
  match v with
  | some s => if s = "" then dflt else s
  | none => dflt

/-- Python `payload.get(k) or None`: collapse a falsy value to `None`. -/
def pyOrNone (v : Option String) : Option String :=
  match v with
  | some s => if s = "" then none else some s
  | none => none

/-- `bool(x)` of an optional payload value (`dict.get` default `False`). -/
def pyTruthyOpt : Option PVal → Bool
  | none => false
  | some v => pyTruthy v

/-- One task of the `POST /api/inspections` payload; `none` marks an absent
key. -/
structure TaskPayload where
  id : Option String
  name : Option String
  completed : Option PVal
deriving DecidableEq, Repr

/-- The `POST /api/inspections` payload (camelCase and snake_case spellings
of one field are collapsed into one optional field). -/
structure InspPayload where
  id : Option String
  orderId : Option String
  unitNumber : Option String
  guestName : Option String
  departureDate : Option String
  status : Option String
  tasks : List TaskPayload
deriving DecidableEq, Repr

/-- The task list included in the endpoint's response: either the saved
rows or the caller's original input echoed back. -/
inductive RespTasks where
  | fromPayload (l : List TaskPayload)
  | fromSaved (l : List ITask)
deriving DecidableEq, Repr

/-- The JSON object returned by a successful `create_inspection` call. -/
structure CIResp where
  id : String
  orderId : Option String
  unitNumber : String
  guestName : String
  departureDate : String
  status : String
  tasks : RespTasks
  savedTasksCount : Nat
  totalTasksCount : Nat
  completedTasksCount : Nat
  failedTasksCount : Nat
deriving DecidableEq, Repr

/-- Full outcome of a `create_inspection` call: final store, operation
trace, and either the response object or an HTTP 500. -/
structure CIOut where
  store : Store
  trace : List Op
  resp : Except String CIResp
deriving Repr

/-- `completedTasksCount`: truthy `completed` values among the returned
tasks (line 1592). -/
def completedCount : RespTasks → Nat
  | RespTasks.fromSaved l => (l.filter (fun r => pyTruthy r.completed)).length
  | RespTasks.fromPayload l => (l.filter (fun t => pyTruthyOpt t.completed)).length

/-- PATCH on `(task id, mission id)`: update the matching rows' provided
fields. -/
def applyTaskPatch (st : Store) (tid iid : String) (nm : Option String)
    (cv : Option PVal) : Store :=
  { st with tasks := st.tasks.map (fun r =>
      if r.id = tid ∧ r.inspectionId = iid then
        { r with name := nm.getD r.name, completed := cv.getD r.completed }
      else r) }

/-- Row landed by a POST whose success status the schedule reported. -/
def appendTaskRow (st : Store) (row : ITask) : Store :=
  { st with tasks := st.tasks ++ [row] }

/-- DELETE on `(task id, mission id)`. -/
def deleteTaskRow (st : Store) (tid iid : String) : Store :=
  { st with tasks := st.tasks.filter (fun r => decide (¬(r.id = tid ∧ r.inspectionId = iid))) }

/-- The full `inspection_data` JSON body (lines 1316-1323). -/
def missionBody (i : Inspection) : List (String × String) :=
  [("id", i.id), ("order_id", i.orderId), ("unit_number", i.unitNumber),
   ("guest_name", i.guestName), ("departure_date", i.departureDate), ("status", i.status)]

/-- State threaded through the per-task upsert loop of `create_inspection`. -/
structure UpLoopState where
  store : Store
  trace : List Op
  saved : List ITask
  failed : List ITask
  callIdx : Nat
  uuidIdx : Nat
deriving Repr

/-- The record appended by the per-task exception handlers
(lines 1514-1537): raw-payload accessors, a fresh uuid when the id is
falsy, truthiness (`bool(...)`) of the raw `completed`. -/
def excRecord (uuids : Uuids) (uIdx : Nat) (t : TaskPayload) (iid : String) :
    ITask × Nat :=
  let nm := t.name.getD ""
  let cv := PVal.pbool (pyTruthyOpt t.completed)
  match t.id with
  | some x => if x = "" then (⟨uuids uIdx, iid, nm, cv⟩, uIdx + 1) else (⟨x, iid, nm, cv⟩, uIdx)
  | none => (⟨uuids uIdx, iid, nm, cv⟩, uIdx + 1)

/-- One iteration of the per-task upsert loop of `create_inspection`
(lines 1414-1537): update when the id is already stored for this mission,
else insert, with the fallback paths of the source; every iteration
records the task in exactly one of `saved` / `failed`. -/
def upsertStep (env : Env) (uuids : Uuids) (iid : String)
    (existingIds : List String) (t : TaskPayload) (s0 : UpLoopState) : UpLoopState :=
  let tu :=
    match t.id with
    | some x => if x = "" then (uuids s0.uuidIdx, s0.uuidIdx + 1) else (x, s0.uuidIdx)
    | none => (uuids s0.uuidIdx, s0.uuidIdx + 1)
  let tid := tu.1
  let u1 := tu.2
  let b := normalizeCompleted t.completed
  let row : ITask := ⟨tid, iid, t.name.getD "", PVal.pbool b⟩
  let s := { s0 with uuidIdx := u1 }
  if tid ∈ existingIds then
    let res := env s.callIdx
    let s := { s with
      callIdx := s.callIdx + 1
      trace := s.trace ++ [Op.patchTask tid iid (some row.name) (some row.completed)] }
    match res with
    | CallRes.status n =>
        if successPatchCode n then
          { s with
            store := applyTaskPatch s.store tid iid (some row.name) (some row.completed)
            saved := s.saved ++ [row] }
        else
          let res2 := env s.callIdx
          let s := { s with callIdx := s.callIdx + 1, trace := s.trace ++ [Op.postTask row] }
          match res2 with
          | CallRes.status m =>
              if successPostCode m then
                { s with store := appendTaskRow s.store row, saved := s.saved ++ [row] }
              else { s with failed := s.failed ++ [row] }
          | CallRes.httpErr c =>
              let eu := excRecord uuids s.uuidIdx t iid
              if c = some 404 then { s with uuidIdx := eu.2, saved := s.saved ++ [eu.1] }
              else { s with uuidIdx := eu.2, failed := s.failed ++ [eu.1] }
          | CallRes.exn =>
              let eu := excRecord uuids s.uuidIdx t iid
              { s with uuidIdx := eu.2, failed := s.failed ++ [eu.1] }
    | CallRes.httpErr c =>
        let eu := excRecord uuids s.uuidIdx t iid
        if c = some 404 then { s with uuidIdx := eu.2, saved := s.saved ++ [eu.1] }
        else { s with uuidIdx := eu.2, failed := s.failed ++ [eu.1] }
    | CallRes.exn =>
        let eu := excRecord uuids s.uuidIdx t iid
        { s with uuidIdx := eu.2, failed := s.failed ++ [eu.1] }
  else
    let res := env s.callIdx
    let s := { s with callIdx := s.callIdx + 1, trace := s.trace ++ [Op.postTask row] }
    match res with
    | CallRes.status n =>
        if successPostCode n then
          { s with store := appendTaskRow s.store row, saved := s.saved ++ [row] }
        else if n = 404 then { s with failed := s.failed ++ [row] }
        else if n = 409 then
          let res2 := env s.callIdx
          let s := { s with
            callIdx := s.callIdx + 1
            trace := s.trace ++ [Op.patchTask tid iid (some row.name) (some row.completed)] }
          match res2 with
          | CallRes.status m =>
              if successPatchCode m then
                { s with
                  store := applyTaskPatch s.store tid iid (some row.name) (some row.completed)
                  saved := s.saved ++ [row] }
              else { s with failed := s.failed ++ [row] }
          | _ => { s with failed := s.failed ++ [row] }
        else { s with failed := s.failed ++ [row] }
    | CallRes.httpErr c =>
        let eu := excRecord uuids s.uuidIdx t iid
        if c = some 404 then { s with uuidIdx := eu.2, saved := s.saved ++ [eu.1] }
        else { s with uuidIdx := eu.2, failed := s.failed ++ [eu.1] }
    | CallRes.exn =>
        let eu := excRecord uuids s.uuidIdx t iid
        { s with uuidIdx := eu.2, failed := s.failed ++ [eu.1] }

/-- The per-task upsert loop (lines 1414-1537). -/
def upsertLoop (env : Env) (uuids : Uuids) (iid : String)
    (existingIds : List String) : List TaskPayload → UpLoopState → UpLoopState
  | [], s => s
  | t :: ts, s => upsertLoop env uuids iid existingIds ts (upsertStep env uuids iid existingIds t s)

/-- Orphan-cleanup loop of `create_inspection` (lines 1551-1563): one
dual-scoped DELETE per leftover id; failures are caught per delete. -/
def cleanupLoop (env : Env) (iid : String) : List String → UpLoopState → UpLoopState
  | [], s => s
  | d :: ds, s0 =>
      let res := env s0.callIdx
      let s := { s0 with callIdx := s0.callIdx + 1, trace := s0.trace ++ [Op.deleteTask d iid] }
      let s :=
        match res with
        | CallRes.status n =>
            if n = 200 ∨ n = 204 then { s with store := deleteTaskRow s.store d iid } else s
        | _ => s
      cleanupLoop env iid ds s

/-- Task handling of `create_inspection` (lines 1388-1588): fetch the
existing ids, upsert each target task, and run the orphan cleanup only
when every target task was saved and none failed.  Returns the final
store, the trace so far, and the `saved` / `failed` lists. -/
def taskGetIds (env : Env) (st1 : Store) (iid : String) : List String :=
  match env 2 with
  | CallRes.status n =>
      if n = 200 then (st1.tasks.filter (fun r => r.inspectionId == iid)).map (fun r => r.id)
      else []
  | _ => []

def taskPhase (p : InspPayload) (env : Env) (uuids : Uuids) (iid : String)
    (u0 : Nat) (st1 : Store) (tr : List Op) :
    Store × List Op × List ITask × List ITask :=
  let existingIds : List String := taskGetIds env st1 iid
  let s0 : UpLoopState := ⟨st1, tr ++ [Op.getTasks iid], [], [], 3, u0⟩
  let s1 := upsertLoop env uuids iid existingIds p.tasks s0
  let s2 :=
    if s1.saved ≠ [] ∧ s1.saved.length = p.tasks.length ∧ s1.failed = [] then
      if existingIds ≠ [] then
        cleanupLoop env iid
          ((existingIds.eraseDups).filter (fun d => d ∉ s1.saved.map (fun r => r.id))) s1
      else s1
    else s1
  (s2.store, s2.trace, s1.saved, s1.failed)

/-- The mission id used by `create_inspection`: the payload id when truthy,
else a fresh uuid (line 1312); the second component is the next uuid
index. -/
def ciMissionId (p : InspPayload) (uuids : Uuids) : String × Nat :=
  match p.id with
  | some x => if x = "" then (uuids 0, 1) else (x, 0)
  | none => (uuids 0, (1 : Nat))

/-- `create_inspection`, the `POST /api/inspections` endpoint
(lines 1308-1614): mission upsert, per-task upsert, gated orphan cleanup,
and the response object with save counts. -/
def create_inspection (p : InspPayload) (env : Env) (uuids : Uuids) (st : Store) : CIOut :=
  let iid := (ciMissionId p uuids).1
  let u0 := (ciMissionId p uuids).2
  let oid : Option String := pyOrNone p.orderId
  let idata : Inspection :=
    ⟨iid, oid.getD "", pyGetStr p.unitNumber "", pyGetStr p.guestName "",
     pyGetStr p.departureDate "", p.status.getD DEFAULT_STATUS⟩
  let res0 := env 0
  let existing? : Option (List Inspection) :=
    match res0 with
    | CallRes.status n =>
        if n = 404 then some []
        else if 400 ≤ n then none
        else some (st.inspections.filter (fun r => r.id == iid))
    | CallRes.httpErr c => if c = some 404 then some [] else none
    | CallRes.exn => some []
  match existing? with
  | none => ⟨st, [Op.getMission iid], Except.error "Supabase error"⟩
  | some existing =>
      let res1 := env 1
      let so :=
        if existing ≠ [] then
          (match res1 with
           | CallRes.status n =>
               if n = 404 then some st
               else if 400 ≤ n then none
               else if successPatchCode n then some (patchInspection st iid (missionBody idata))
               else some st
           | CallRes.httpErr c => if c = some 404 then some st else none
           | CallRes.exn => none,
           Op.patchMission iid (missionBody idata))
        else
          (match res1 with
           | CallRes.status n =>
               if successPostCode n then some { st with inspections := st.inspections ++ [idata] }
               else if n = 404 ∨ n = 409 then some st
               else if 400 ≤ n then none
               else some st
           | CallRes.httpErr c => if c = some 404 ∨ c = some 409 then some st else none
           | CallRes.exn => none,
           Op.postMission idata)
      let step1 := so.1
      let op1 := so.2
      match step1 with
      | none => ⟨st, [Op.getMission iid, op1], Except.error "Supabase error"⟩
      | some st1 =>
          if p.tasks = [] then
            ⟨st1, [Op.getMission iid, op1],
             Except.ok ⟨iid, oid, idata.unitNumber, idata.guestName, idata.departureDate,
                        idata.status, RespTasks.fromPayload p.tasks, 0, 0,
                        completedCount (RespTasks.fromPayload p.tasks), 0⟩⟩
          else
            let tp := taskPhase p env uuids iid u0 st1 [Op.getMission iid, op1]
            let returnTasks :=
              if tp.2.2.1 ≠ [] then RespTasks.fromSaved tp.2.2.1
              else RespTasks.fromPayload p.tasks
            ⟨tp.1, tp.2.1,
             Except.ok ⟨iid, oid, idata.unitNumber, idata.guestName, idata.departureDate,
                        idata.status, returnTasks, tp.2.2.1.length, p.tasks.length,
                        completedCount returnTasks, tp.2.2.2.length⟩⟩
/-- The `PATCH .../tasks/{task_id}` payload; `none` marks an absent key
(a present key may carry `null`). -/
structure UTPayload where
  completed : Option PVal
  name : Option String
deriving DecidableEq, Repr

/-- The response of `update_inspection_task`: the no-change message, a
task object (update path, `{id, name, completed}`), the echoed
`create_data` object (create path, additionally carries `inspection_id`),
or the bare `None` the function falls through to on an unhandled POST
status. -/
inductive UTResp where
  | noChanges
  | taskObj (id name : String) (completed : PVal)
  | createData (row : ITask)
  | nullResp
deriving DecidableEq, Repr

/-- Create path of `update_inspection_task` (lines 1684-1721). -/
def utCreatePath (env : Env) (k : Nat) (iid tid task_name : String)
    (p : UTPayload) (st : Store) (tr : List Op) : Store × List Op × UTResp :=
  let create_data : ITask := ⟨tid, iid, task_name, p.completed.getD (PVal.pbool false)⟩
  let tr := tr ++ [Op.postTask create_data]
  match env k with
  | CallRes.status n =>
      if n = 404 then (st, tr, UTResp.createData create_data)
      else if successPostCode n then
        (appendTaskRow st create_data, tr,
          UTResp.taskObj create_data.id create_data.name create_data.completed)
      else (st, tr, UTResp.nullResp)
  | CallRes.httpErr _ => (st, tr, UTResp.createData create_data)
  | CallRes.exn => (st, tr, UTResp.createData create_data)

/-- `update_inspection_task`, the
`PATCH /api/inspections/{inspection_id}/tasks/{task_id}` endpoint
(lines 1616-1739).  The raw payload `completed` is forwarded as-is in the
PATCH body and in `create_data`; no path of this endpoint raises an HTTP
error. -/
def update_inspection_task (iid tid : String) (p : UTPayload) (env : Env)
    (st : Store) : Store × List Op × UTResp :=
  if p.completed = none ∧ p.name = none then (st, [], UTResp.noChanges)
  else
    let res0 := env 0
    let found : Option ITask :=
      match res0 with
      | CallRes.status n =>
          if n = 200 then (st.tasks.filter (fun r => r.id == tid && r.inspectionId == iid)).head?
          else none
      | _ => none
    let task_name :=
      match p.name with
      | some s =>
          if s ≠ "" then s else (match found with | some e => e.name | none => "")
      | none => match found with | some e => e.name | none => ""
    let tr0 : List Op := [Op.getTask tid iid]
    match found with
    | some _ =>
        let res1 := env 1
        let tr1 := tr0 ++ [Op.patchTask tid iid p.name p.completed]
        (match res1 with
         | CallRes.status n =>
             if successPatchCode n then
               let st1 := applyTaskPatch st tid iid p.name p.completed
               if n = 204 then
                 (st1, tr1, UTResp.taskObj tid task_name (p.completed.getD (PVal.pbool false)))
               else
                 match (st1.tasks.filter (fun r => r.id == tid && r.inspectionId == iid)).head? with
                 | some r => (st1, tr1, UTResp.taskObj r.id r.name r.completed)
                 | none =>
                     (st1, tr1, UTResp.taskObj tid task_name (p.completed.getD (PVal.pbool false)))
             else utCreatePath env 2 iid tid task_name p st tr1
         | _ => utCreatePath env 2 iid tid task_name p st tr1)
    | none => utCreatePath env 1 iid tid task_name p st tr0

/-!
## Lemmas: Python string helpers
-/

theorem dropWhile_head_false {p : Char → Bool} :
    ∀ {l : List Char} {c : Char} {rest : List Char},
      l.dropWhile p = c :: rest → p c = false := by
  intro l
  induction l with
  | nil => intro c rest h; simp [List.dropWhile] at h
  | cons a l ih =>
      intro c rest h
      rw [List.dropWhile_cons] at h
      by_cases hp : p a
      · simp only [hp, if_true] at h; exact ih h
      · simp only [hp, if_false] at h
        cases h
        simpa using hp

theorem stripList_eq_nil_iff {p : Char → Bool} {l : List Char} :
    stripList p l = [] ↔ ∀ c ∈ l, p c = true := by
  unfold stripList
  rw [List.reverse_eq_nil_iff, List.dropWhile_eq_nil_iff]
  constructor
  · intro h c hc
    rcases hdw : l.dropWhile p with _ | ⟨d, rest⟩
    · exact (List.dropWhile_eq_nil_iff.mp hdw) c hc
    · have hd : d ∈ l.dropWhile p := by rw [hdw]; exact List.mem_cons_self _ _
      have := h d (by simpa using hd)
      have := dropWhile_head_false hdw
      simp_all
  · intro h c hc
    exact h c ((l.dropWhile_sublist p).mem (by simpa using hc))

theorem stripList_exists_not {p : Char → Bool} {l : List Char}
    (h : stripList p l ≠ []) : ∃ c ∈ stripList p l, p c = false := by
  unfold stripList at *
  rcases hdw : ((l.dropWhile p).reverse.dropWhile p) with _ | ⟨c, rest⟩
  · simp_all
  · refine ⟨c, ?_, dropWhile_head_false hdw⟩
    simp_all

theorem string_mk_ne_empty_iff {l : List Char} : String.mk l ≠ "" ↔ l ≠ [] := by
  constructor
  · intro h hl; exact h (by rw [hl])
  · intro h he
    apply h
    have : (String.mk l).data = ("" : String).data := by rw [he]
    simpa using this

theorem toList_mk (l : List Char) : (String.mk l).toList = l := rfl

/-- A string containing a non-whitespace character survives `pyStrip`. -/
theorem pyStrip_ne_of_nonwhite {s : String}
    (h : ∃ c ∈ s.toList, c.isWhitespace = false) : s ≠ "" ∧ pyStrip s ≠ "" := by
  obtain ⟨c, hc, hw⟩ := h
  constructor
  · intro he; rw [he] at hc; simp [String.toList] at hc
  · unfold pyStrip
    rw [string_mk_ne_empty_iff]
    intro hnil
    have := stripList_eq_nil_iff.mp hnil c hc
    simp_all

/-- A non-empty `pyStrip` result contains a non-whitespace character. -/
theorem nonwhite_of_pyStrip_ne {s : String} (h : pyStrip s ≠ "") :
    ∃ c ∈ (pyStrip s).toList, c.isWhitespace = false := by
  unfold pyStrip at *
  rw [string_mk_ne_empty_iff] at h
  simpa [toList_mk] using stripList_exists_not h

theorem pyStrip_pyStrip_ne {s : String} (h : pyStrip s ≠ "") :
    pyStrip (pyStrip s) ≠ "" :=
  (pyStrip_ne_of_nonwhite (nonwhite_of_pyStrip_ne h)).2

/-- The join of a list starting with `g` has `g.toList` as an initial
segment. -/
theorem pyJoin_cons_toList (sep g : String) (rest : List String) :
    ∃ suf, (pyJoin sep (g :: rest)).toList = g.toList ++ suf := by
  cases rest with
  | nil => exact ⟨[], by simp [pyJoin]⟩
  | cons h t =>
      refine ⟨sep.toList ++ (pyJoin sep (h :: t)).toList, ?_⟩
      show (g ++ sep ++ pyJoin sep (h :: t)).data = g.data ++ (sep.data ++ (pyJoin sep (h :: t)).data)
      simp

/-- A ", "-join whose first entry contains a non-whitespace character is
non-empty and survives `pyStrip`. -/
theorem pyJoin_guard {g : String} (rest : List String)
    (h : ∃ c ∈ g.toList, c.isWhitespace = false) :
    pyJoin ", " (g :: rest) ≠ "" ∧ pyStrip (pyJoin ", " (g :: rest)) ≠ "" := by
  obtain ⟨c, hc, hw⟩ := h
  obtain ⟨suf, hsuf⟩ := pyJoin_cons_toList ", " g rest
  apply pyStrip_ne_of_nonwhite
  exact ⟨c, by rw [hsuf]; exact List.mem_append_left _ hc, hw⟩

theorem string_append_left_cancel {a b c : String} (h : a ++ b = a ++ c) : b = c := by
  have hd : a.data ++ b.data = a.data ++ c.data := congrArg String.data h
  have h2 := List.append_cancel_left hd
  calc b = String.mk b.data := rfl
    _ = String.mk c.data := congrArg String.mk h2
    _ = c := rfl

theorem string_append_inj {a b c d : String} (h : a ++ b = c ++ d)
    (hl : b.length = d.length) : a = c ∧ b = d := by
  have hd : a.data ++ b.data = c.data ++ d.data := congrArg String.data h
  obtain ⟨h1, h2⟩ := List.append_inj' hd hl
  exact ⟨congrArg String.mk h1, congrArg String.mk h2⟩

/-!
## Lemmas: order grouping
-/

/-- Well-formedness of the date groups: non-empty keys, non-empty member
lists, members eligible with the group's date. -/
def GroupsWF (gs : List (String × List Order)) : Prop :=
  ∀ g ∈ gs, g.1 ≠ "" ∧ g.2 ≠ [] ∧ ∀ o ∈ g.2, eligibleOrder o = true ∧ o.departureDate = g.1

theorem eligibleOrder_iff {o : Order} :
    eligibleOrder o = true ↔
      o.departureDate ≠ "" ∧ o.status ≠ CANCELLED ∧
      pyStrip o.unitNumber ≠ "" ∧ pyStrip o.guestName ≠ "" := by
  simp [eligibleOrder, and_assoc]

theorem addToGroup_keys (d : String) (o : Order) :
    ∀ gs : List (String × List Order),
      (addToGroup gs d o).map Prod.fst =
        if d ∈ gs.map Prod.fst then gs.map Prod.fst else gs.map Prod.fst ++ [d]
  | [] => by simp [addToGroup]
  | (k, os) :: rest => by
      by_cases hk : k = d
      · subst hk
        simp [addToGroup]
      · have := addToGroup_keys d o rest
        simp only [addToGroup, if_neg hk, List.map_cons, this]
        by_cases hd : d ∈ rest.map Prod.fst
        · simp [hd, Ne.symm hk]
        · simp [hd, Ne.symm hk]

theorem addToGroup_nodup {d : String} {o : Order} {gs : List (String × List Order)}
    (h : (gs.map Prod.fst).Nodup) : ((addToGroup gs d o).map Prod.fst).Nodup := by
  rw [addToGroup_keys]
  by_cases hd : d ∈ gs.map Prod.fst
  · simpa [hd] using h
  · simp [hd, List.nodup_append, h]

theorem addToGroup_wf {d : String} {o : Order}
    (ho : eligibleOrder o = true) (hd : o.departureDate = d) (hne : d ≠ "") :
    ∀ (gs : List (String × List Order)), GroupsWF gs → GroupsWF (addToGroup gs d o)
  | [], _ => by
      intro g hg
      simp only [addToGroup, List.mem_singleton] at hg
      subst hg
      refine ⟨hne, by simp, ?_⟩
      intro x hx
      simp only [List.mem_singleton] at hx
      subst hx
      exact ⟨ho, hd⟩
  | (k, os) :: rest, h => by
      intro g hg
      simp only [addToGroup] at hg
      by_cases hk : k = d
      · rw [if_pos hk] at hg
        rcases List.mem_cons.mp hg with hg | hg
        · subst hg
          obtain ⟨h1, _, h3⟩ := h (k, os) (List.mem_cons_self _ _)
          refine ⟨h1, by simp, ?_⟩
          intro x hx
          rcases List.mem_append.mp hx with hx | hx
          · exact h3 x hx
          · simp only [List.mem_singleton] at hx
            subst hx
            exact ⟨ho, by rw [hd]; exact hk.symm⟩
        · exact h _ (List.mem_cons_of_mem _ hg)
      · rw [if_neg hk] at hg
        rcases List.mem_cons.mp hg with hg | hg
        · subst hg
          exact h _ (List.mem_cons_self _ _)
        · exact addToGroup_wf ho hd hne rest
            (fun g2 hg2 => h g2 (List.mem_cons_of_mem _ hg2)) g hg

theorem ordersByDateAux_wf :
    ∀ (orders : List Order) (acc : List (String × List Order)),
      GroupsWF acc → GroupsWF (ordersByDateAux acc orders)
  | [], acc, h => h
  | o :: rest, acc, h => by
      rw [ordersByDateAux]
      by_cases ho : eligibleOrder o
      · rw [if_pos ho]
        refine ordersByDateAux_wf rest _ ?_
        exact addToGroup_wf ho rfl (eligibleOrder_iff.mp ho).1 _ h
      · rw [if_neg ho]
        exact ordersByDateAux_wf rest acc h

theorem ordersByDateAux_nodup :
    ∀ (orders : List Order) (acc : List (String × List Order)),
      (acc.map Prod.fst).Nodup → ((ordersByDateAux acc orders).map Prod.fst).Nodup
  | [], _, h => h
  | o :: rest, acc, h => by
      rw [ordersByDateAux]
      by_cases ho : eligibleOrder o
      · rw [if_pos ho]
        exact ordersByDateAux_nodup rest _ (addToGroup_nodup h)
      · rw [if_neg ho]
        exact ordersByDateAux_nodup rest acc h

theorem ordersByDate_wf (orders : List Order) : GroupsWF (ordersByDate orders) :=
  ordersByDateAux_wf orders [] (by intro g hg; simp at hg)

theorem ordersByDate_keys_nodup (orders : List Order) :
    ((ordersByDate orders).map Prod.fst).Nodup :=
  ordersByDateAux_nodup orders [] (by simp)

/-!
## Lemmas: guest joins pass the creation guard
-/

theorem exitGuestJoin_guard {o : Order} {rest : List Order}
    (ho : pyStrip o.guestName ≠ "") :
    exitGuestJoin (o :: rest) ≠ "" ∧ pyStrip (exitGuestJoin (o :: rest)) ≠ "" := by
  unfold exitGuestJoin
  rw [List.map_cons, List.filter_cons_of_pos (by simpa using ho)]
  exact pyJoin_guard _ (nonwhite_of_pyStrip_ne ho)

/-- The condition the cleaning guest-set enumeration must satisfy (true of
any enumeration of a Python set built from the list). -/
def PySetOK (pySet : List String → List String) : Prop :=
  ∀ l, (∀ x ∈ pySet l, x ∈ l) ∧ (l ≠ [] → pySet l ≠ [])

theorem cleaningGuestJoin_guard {pySet : List String → List String}
    (hps : PySetOK pySet) {o : Order} {rest : List Order}
    (ho : pyStrip o.guestName ≠ "") :
    cleaningGuestJoin pySet (o :: rest) ≠ "" ∧
      pyStrip (cleaningGuestJoin pySet (o :: rest)) ≠ "" := by
  simp only [cleaningGuestJoin]
  by_cases hr : rest = []
  · rw [if_pos hr]
    exact ⟨ho, pyStrip_pyStrip_ne ho⟩
  · rw [if_neg hr]
    set names := (((o :: rest).map (fun x => pyStrip x.guestName)).filter (fun g => g ≠ "")) with hnames
    have hnamesne : names ≠ [] := by
      rw [hnames, List.map_cons, List.filter_cons_of_pos (by simpa using ho)]
      simp
    have h1 := (hps names).1
    have h2 := (hps names).2 hnamesne
    rcases hset : pySet names with _ | ⟨x0, xs⟩
    · exact absurd hset h2
    · have hx0 : x0 ∈ names := h1 x0 (by rw [hset]; exact List.mem_cons_self _ _)
      rw [hnames, List.mem_filter] at hx0
      obtain ⟨hx0m, hx0ne⟩ := hx0
      rw [List.mem_map] at hx0m
      obtain ⟨y, _, hy⟩ := hx0m
      have hx0 : x0 ≠ "" := by simpa using hx0ne
      exact pyJoin_guard xs (hy ▸ nonwhite_of_pyStrip_ne (by rw [hy]; exact hx0))

/-!
## Lemmas: store primitives
-/

theorem insertInspection_tasks (st : Store) (row : Inspection) :
    (insertInspection st row).tasks = st.tasks := by
  unfold insertInspection
  split <;> rfl

theorem insertInspection_inspections_no_conflict (st : Store) (row : Inspection)
    (h : ∀ r ∈ st.inspections, r.id ≠ row.id) :
    (insertInspection st row).inspections = st.inspections ++ [row] := by
  unfold insertInspection
  rw [if_neg]
  intro hany
  rw [List.any_eq_true] at hany
  obtain ⟨r, hr, hid⟩ := hany
  exact h r hr (by simpa using hid)

theorem insertTaskRow_inspections (st : Store) (row : ITask) :
    (insertTaskRow st row).inspections = st.inspections := by
  unfold insertTaskRow
  split <;> rfl

theorem insertTaskRow_tasks (st : Store) (row : ITask) :
    ∃ l, (insertTaskRow st row).tasks = st.tasks ++ l := by
  unfold insertTaskRow
  split
  · exact ⟨[], by simp⟩
  · exact ⟨[row], rfl⟩

theorem patchInspection_tasks (st : Store) (iid : String) (fs : List (String × String)) :
    (patchInspection st iid fs).tasks = st.tasks := rfl

theorem deleteInspection_tasks (st : Store) (iid : String) :
    (deleteInspection st iid).tasks = st.tasks := rfl

theorem deleteInspection_mem (st : Store) (iid : String) (r : Inspection) :
    r ∈ (deleteInspection st iid).inspections ↔ r ∈ st.inspections ∧ r.id ≠ iid := by
  unfold deleteInspection
  simp [List.mem_filter]

theorem seedTasks_inspections (iid : String) :
    ∀ (tmpl : List TemplateTask) (st : Store),
      (seedTasks iid st tmpl).1.inspections = st.inspections
  | [], _ => rfl
  | t :: rest, st => by
      rw [seedTasks]
      simp only []
      rw [seedTasks_inspections iid rest, insertTaskRow_inspections]

theorem seedTasks_tasks (iid : String) :
    ∀ (tmpl : List TemplateTask) (st : Store),
      ∃ l, (seedTasks iid st tmpl).1.tasks = st.tasks ++ l
  | [], st => ⟨[], by simp [seedTasks]⟩
  | t :: rest, st => by
      rw [seedTasks]
      simp only []
      obtain ⟨l0, h0⟩ := insertTaskRow_tasks st ⟨t.id, iid, t.name, PVal.pbool false⟩
      obtain ⟨l1, h1⟩ := seedTasks_tasks iid rest (insertTaskRow st ⟨t.id, iid, t.name, PVal.pbool false⟩)
      exact ⟨l0 ++ l1, by rw [h1, h0, List.append_assoc]⟩

theorem seedTasks_ops (iid : String) :
    ∀ (tmpl : List TemplateTask) (st : Store),
      ∀ op ∈ (seedTasks iid st tmpl).2, ∃ row, op = Op.postTask row
  | [], _ => by intro op hop; simp [seedTasks] at hop
  | t :: rest, st => by
      intro op hop
      rw [seedTasks] at hop
      simp only [List.mem_cons] at hop
      rcases hop with hop | hop
      · exact ⟨_, hop⟩
      · exact seedTasks_ops iid rest _ op hop

/-!
## Lemmas: per-date mission creation (exit kind)
-/

theorem updateFieldsFor_mem {e : Inspection} {u g : String} :
    ∀ f ∈ updateFieldsFor e u g,
      (f = ("unit_number", u) ∧ e.unitNumber ≠ u) ∨
      (f.1 = "guest_name" ∧ e.guestName ≠ g) := by
  intro f hf
  unfold updateFieldsFor at hf
  rcases List.mem_append.mp hf with hf | hf
  · by_cases h : e.unitNumber = u
    · rw [if_neg (by simpa using h)] at hf
      simp at hf
    · rw [if_pos h] at hf
      simp only [List.mem_singleton] at hf
      exact Or.inl ⟨hf, h⟩
  · by_cases h : e.guestName = g
    · rw [if_neg (by simpa using h)] at hf
      simp at hf
    · rw [if_pos h] at hf
      simp only [List.mem_singleton] at hf
      exact Or.inr ⟨by rw [hf], h⟩

theorem cifdd_tasks (d oid u g : String) (st : Store) :
    ∃ l, (create_inspection_for_departure_date d oid u g st).1.tasks = st.tasks ++ l := by
  unfold create_inspection_for_departure_date
  split
  · exact ⟨[], by simp⟩
  split
  · exact ⟨[], by simp⟩
  split
  · split
    · dsimp only []
      split
      · exact ⟨[], by simp [patchInspection_tasks]⟩
      · exact ⟨[], by simp⟩
    · exact ⟨[], by simp⟩
  · obtain ⟨l, hl⟩ := seedTasks_tasks ("INSP-" ++ d) DEFAULT_INSPECTION_TASKS
      (insertInspection st ⟨"INSP-" ++ d, oid, u, g, d, DEFAULT_STATUS⟩)
    refine ⟨l, ?_⟩
    simp only []
    rw [hl, insertInspection_tasks]

theorem cifdd_ops (d oid u g : String) (st : Store) :
    ∀ op ∈ (create_inspection_for_departure_date d oid u g st).2,
      (∃ row, op = Op.postMission row) ∨ (∃ row, op = Op.postTask row) ∨
      (∃ iid fs, op = Op.patchMission iid fs) := by
  intro op hop
  unfold create_inspection_for_departure_date at hop
  split at hop
  · simp at hop
  split at hop
  · simp at hop
  split at hop
  · split at hop
    · dsimp only [] at hop
      split at hop
      · simp only [List.mem_singleton] at hop
        exact Or.inr (Or.inr ⟨_, _, hop⟩)
      · simp at hop
    · simp at hop
  · simp only [List.mem_cons] at hop
    rcases hop with hop | hop
    · exact Or.inl ⟨_, hop⟩
    · exact Or.inr (Or.inl (seedTasks_ops _ _ _ op hop))

theorem cifdd_patch_ops (d oid u g : String) (st : Store) :
    ∀ iid fs, Op.patchMission iid fs ∈ (create_inspection_for_departure_date d oid u g st).2 →
      ∃ e ∈ st.inspections, e.departureDate = d ∧ iid = e.id ∧ fs = updateFieldsFor e u g := by
  intro iid fs hop
  unfold create_inspection_for_departure_date at hop
  split at hop
  · simp at hop
  split at hop
  · simp at hop
  split at hop
  case _ e rest heq =>
    have he : e ∈ st.inspections ∧ e.departureDate = d := by
      have : e ∈ st.inspections.filter (fun r => r.departureDate == d) := by
        rw [heq]; exact List.mem_cons_self _ _
      rw [List.mem_filter] at this
      exact ⟨this.1, by simpa using this.2⟩
    split at hop
    · dsimp only [] at hop
      split at hop
      · simp only [List.mem_singleton, Op.patchMission.injEq] at hop
        exact ⟨e, he.1, he.2, hop.1, hop.2⟩
      · simp at hop
    · simp at hop
  case _ heq =>
    simp only [List.mem_cons] at hop
    rcases hop with hop | hop
    · simp at hop
    · obtain ⟨row, hrow⟩ := seedTasks_ops _ _ _ _ hop
      simp at hrow

/-- Fault-free creation: when the date is fresh (no stored mission has it,
none has the derived id) and the guards pass, exactly the desired mission
row is appended. -/
theorem cifdd_creates (d oid u g : String) (st : Store)
    (hd : d ≠ "") (hu : u ≠ "") (hu2 : pyStrip u ≠ "") (hg : g ≠ "") (hg2 : pyStrip g ≠ "")
    (hnodate : ∀ r ∈ st.inspections, r.departureDate ≠ d)
    (hnoid : ∀ r ∈ st.inspections, r.id ≠ "INSP-" ++ d) :
    (create_inspection_for_departure_date d oid u g st).1.inspections =
      st.inspections ++ [⟨"INSP-" ++ d, oid, u, g, d, DEFAULT_STATUS⟩] := by
  unfold create_inspection_for_departure_date
  rw [if_neg hd, if_neg (by push_neg; exact ⟨hu, hu2, hg, hg2⟩)]
  have hfil : st.inspections.filter (fun r => r.departureDate == d) = [] := by
    rw [List.filter_eq_nil_iff]
    intro r hr
    simpa using hnodate r hr
  split
  case _ e rest heq => rw [hfil] at heq; cases heq
  case _ heq =>
    simp only []
    rw [seedTasks_inspections, insertInspection_inspections_no_conflict _ _ hnoid]

/-!
## Lemmas: reconciliation phases (exit kind)
-/

/-- The mission row the exit creation loop builds for one date group:
descriptive fields from the first booking, guest names joined in encounter
order (duplicates kept). -/
def exitDesired (g : String × List Order) : Inspection :=
  match g.2 with
  | [] => ⟨"INSP-" ++ g.1, "", "", "", g.1, DEFAULT_STATUS⟩
  | o :: _ => ⟨"INSP-" ++ g.1, o.id, pyStrip o.unitNumber, exitGuestJoin g.2, g.1, DEFAULT_STATUS⟩

theorem createPhaseExit_state :
    ∀ (gs : List (String × List Order)) (st : Store) (eD : List String),
      GroupsWF gs → (gs.map Prod.fst).Nodup →
      (∀ g ∈ gs, g.1 ∉ eD → ∀ r ∈ st.inspections,
        r.departureDate ≠ g.1 ∧ r.id ≠ "INSP-" ++ g.1) →
      (createPhaseExit eD gs st).1.inspections =
        st.inspections ++ (gs.filter (fun g => decide (g.1 ∉ eD))).map exitDesired
  | [], st, eD, _, _, _ => by simp [createPhaseExit]
  | (d, os) :: gs, st, eD, hwf, hnd, hfresh => by
      have hwftail : GroupsWF gs := fun g hg => hwf g (List.mem_cons_of_mem _ hg)
      have hndtail : (gs.map Prod.fst).Nodup := by
        simp only [List.map_cons, List.nodup_cons] at hnd
        exact hnd.2
      have hdnot : d ∉ gs.map Prod.fst := by
        simp only [List.map_cons, List.nodup_cons] at hnd
        exact hnd.1
      rw [createPhaseExit.eq_def]
      dsimp only []
      by_cases hin : d ∈ eD
      · rw [if_pos hin]
        rw [List.filter_cons_of_neg (by simpa using hin)]
        exact createPhaseExit_state gs st eD hwftail hndtail
          (fun g hg => hfresh g (List.mem_cons_of_mem _ hg))
      · rw [if_neg hin]
        obtain ⟨hkne, hosne, hmem⟩ := hwf (d, os) (List.mem_cons_self _ _)
        rcases os with _ | ⟨o, os'⟩
        · exact absurd rfl hosne
        dsimp only []
        obtain ⟨ho_elig, _⟩ := hmem o (List.mem_cons_self _ _)
        have hu := (eligibleOrder_iff.mp ho_elig).2.2.1
        have hgj : exitGuestJoin (o :: os') ≠ "" ∧ pyStrip (exitGuestJoin (o :: os')) ≠ "" :=
          exitGuestJoin_guard (eligibleOrder_iff.mp ho_elig).2.2.2
        have hfr := hfresh (d, o :: os') (List.mem_cons_self _ _) hin
        have hcre := cifdd_creates d o.id (pyStrip o.unitNumber) (exitGuestJoin (o :: os')) st
          hkne hu (pyStrip_pyStrip_ne hu) hgj.1 hgj.2
          (fun r hr => (hfr r hr).1) (fun r hr => (hfr r hr).2)
        have hfresh2 : ∀ g ∈ gs, g.1 ∉ eD →
            ∀ r ∈ (create_inspection_for_departure_date d o.id (pyStrip o.unitNumber)
              (exitGuestJoin (o :: os')) st).1.inspections,
              r.departureDate ≠ g.1 ∧ r.id ≠ "INSP-" ++ g.1 := by
          intro g hg hgin r hr
          rw [hcre] at hr
          rcases List.mem_append.mp hr with hr | hr
          · exact hfresh g (List.mem_cons_of_mem _ hg) hgin r hr
          · simp only [List.mem_singleton] at hr
            subst hr
            have hdg : d ≠ g.1 := by
              intro he
              exact hdnot (he ▸ List.mem_map_of_mem Prod.fst hg)
            refine ⟨by simpa using hdg, ?_⟩
            intro hids
            exact hdg (string_append_left_cancel hids)
        rw [createPhaseExit_state gs _ eD hwftail hndtail hfresh2, hcre]
        rw [List.filter_cons_of_pos (by simpa using hin)]
        simp only [List.map_cons, List.append_assoc]
        rfl

theorem createPhaseExit_skip :
    ∀ (gs : List (String × List Order)) (st : Store) (eD : List String),
      (∀ g ∈ gs, g.1 ∈ eD) → createPhaseExit eD gs st = (st, [])
  | [], _, _, _ => rfl
  | (d, os) :: gs, st, eD, h => by
      rw [createPhaseExit.eq_def]
      dsimp only []
      rw [if_pos (h (d, os) (List.mem_cons_self _ _))]
      exact createPhaseExit_skip gs st eD (fun g hg => h g (List.mem_cons_of_mem _ hg))

theorem createPhaseExit_tasks (eD : List String) :
    ∀ (gs : List (String × List Order)) (st : Store),
      ∃ l, (createPhaseExit eD gs st).1.tasks = st.tasks ++ l
  | [], st => ⟨[], by simp [createPhaseExit]⟩
  | (d, os) :: gs, st => by
      rw [createPhaseExit.eq_def]
      dsimp only []
      by_cases hin : d ∈ eD
      · rw [if_pos hin]
        exact createPhaseExit_tasks eD gs st
      · rw [if_neg hin]
        dsimp only []
        rcases os with _ | ⟨o, os'⟩
        · exact createPhaseExit_tasks eD gs st
        · obtain ⟨l1, h1⟩ := cifdd_tasks d o.id (pyStrip o.unitNumber)
            (exitGuestJoin (o :: os')) st
          obtain ⟨l2, h2⟩ := createPhaseExit_tasks eD gs
            (create_inspection_for_departure_date d o.id (pyStrip o.unitNumber)
              (exitGuestJoin (o :: os')) st).1
          exact ⟨l1 ++ l2, by rw [h2, h1, List.append_assoc]⟩

theorem createPhaseExit_ops (eD : List String) :
    ∀ (gs : List (String × List Order)) (st : Store),
      ∀ op ∈ (createPhaseExit eD gs st).2,
        (∃ row, op = Op.postMission row) ∨ (∃ row, op = Op.postTask row) ∨
        (∃ iid fs, op = Op.patchMission iid fs)
  | [], st => by intro op hop; simp [createPhaseExit] at hop
  | (d, os) :: gs, st => by
      intro op hop
      rw [createPhaseExit.eq_def] at hop
      dsimp only [] at hop
      by_cases hin : d ∈ eD
      · rw [if_pos hin] at hop
        exact createPhaseExit_ops eD gs st op hop
      · rw [if_neg hin] at hop
        dsimp only [] at hop
        rcases os with _ | ⟨o, os'⟩
        · simp only [List.nil_append] at hop
          exact createPhaseExit_ops eD gs st op hop
        · rcases List.mem_append.mp hop with hop | hop
          · exact cifdd_ops _ _ _ _ _ op hop
          · exact createPhaseExit_ops eD gs _ op hop

theorem deletePhase_tasks (desired : List String) :
    ∀ (rows : List Inspection) (st : Store), (deletePhase desired rows st).1.tasks = st.tasks
  | [], _ => rfl
  | r :: rows, st => by
      rw [deletePhase]
      split
      · dsimp only []
        rw [deletePhase_tasks desired rows, deleteInspection_tasks]
      · exact deletePhase_tasks desired rows st

theorem deletePhase_mem (desired : List String) :
    ∀ (rows : List Inspection) (st : Store) (x : Inspection),
      x ∈ (deletePhase desired rows st).1.inspections ↔
        x ∈ st.inspections ∧
          ∀ rr ∈ rows, (rr.departureDate ≠ "" ∧ rr.departureDate ∉ desired) → rr.id ≠ x.id
  | [], st, x => by simp [deletePhase]
  | r :: rows, st, x => by
      rw [deletePhase]
      by_cases hc : r.departureDate ≠ "" ∧ r.departureDate ∉ desired
      · rw [if_pos hc]
        dsimp only []
        rw [deletePhase_mem desired rows _ x, deleteInspection_mem]
        constructor
        · rintro ⟨⟨hx, hne⟩, hall⟩
          refine ⟨hx, ?_⟩
          rw [List.forall_mem_cons]
          exact ⟨fun _ => Ne.symm hne, hall⟩
        · rintro ⟨hx, hall⟩
          rw [List.forall_mem_cons] at hall
          exact ⟨⟨hx, Ne.symm (hall.1 hc)⟩, hall.2⟩
      · rw [if_neg hc]
        rw [deletePhase_mem desired rows st x]
        constructor
        · rintro ⟨hx, hall⟩
          refine ⟨hx, ?_⟩
          rw [List.forall_mem_cons]
          exact ⟨fun h => absurd h hc, hall⟩
        · rintro ⟨hx, hall⟩
          rw [List.forall_mem_cons] at hall
          exact ⟨hx, hall.2⟩

theorem deletePhase_trace (desired : List String) :
    ∀ (rows : List Inspection) (st : Store),
      (deletePhase desired rows st).2 =
        (rows.filter (fun rr =>
          decide (rr.departureDate ≠ "") && decide (rr.departureDate ∉ desired))).map
            (fun rr => Op.deleteMission rr.id)
  | [], _ => rfl
  | r :: rows, st => by
      rw [deletePhase]
      by_cases hc : r.departureDate ≠ "" ∧ r.departureDate ∉ desired
      · rw [if_pos hc]
        dsimp only []
        rw [deletePhase_trace desired rows]
        rw [List.filter_cons_of_pos (by simp [hc.1, hc.2])]
        simp
      · rw [if_neg hc]
        rw [deletePhase_trace desired rows st]
        rw [List.filter_cons_of_neg (by simpa [not_and_or] using hc)]

theorem existingDatesOf_mem {rows : List Inspection} {d : String} :
    d ∈ existingDatesOf rows ↔ (∃ r ∈ rows, r.departureDate = d) ∧ d ≠ "" := by
  unfold existingDatesOf
  rw [List.mem_filter, List.mem_map]
  simp only [decide_eq_true_iff]

/-!
## Lemmas: exit-kind reconciliation pass
-/

/-- Store sanity for the exit mission table: ids are unique (the store's
primary key) and a row carrying a derived id `INSP-{date}` is the mission
of that date. -/
def ExitWF (st : Store) : Prop :=
  (st.inspections.map (fun r => r.id)).Nodup ∧
  ∀ r ∈ st.inspections, ∀ s, r.id = "INSP-" ++ s → r.departureDate = s

theorem exitDesired_date (g : String × List Order) :
    (exitDesired g).departureDate = g.1 ∧ (exitDesired g).id = "INSP-" ++ g.1 := by
  unfold exitDesired
  rcases g with ⟨d, _ | ⟨o, os⟩⟩ <;> exact ⟨rfl, rfl⟩

/-- Fault-free idempotence of the exit reconciliation pass: the second run
issues no operation at all. -/
theorem sync_exit_idem (orders : List Order) (st : Store) (hwf : ExitWF st) :
    (sync_inspections_with_orders orders (sync_inspections_with_orders orders st).1).2 = [] := by
  have hwfg := ordersByDate_wf orders
  have hnd := ordersByDate_keys_nodup orders
  set groups := ordersByDate orders with hgroups
  set eD := existingDatesOf st.inspections with heD
  set desired := groups.map Prod.fst with hdesired
  have hfresh : ∀ g ∈ groups, g.1 ∉ eD → ∀ r ∈ st.inspections,
      r.departureDate ≠ g.1 ∧ r.id ≠ "INSP-" ++ g.1 := by
    intro g hg hgin r hr
    obtain ⟨hkne, _, _⟩ := hwfg g hg
    constructor
    · intro hrd
      exact hgin (existingDatesOf_mem.mpr ⟨⟨r, hr, hrd⟩, hkne⟩)
    · intro hid
      exact hgin (existingDatesOf_mem.mpr ⟨⟨r, hr, hwf.2 r hr g.1 hid⟩, hkne⟩)
  have hcp := createPhaseExit_state groups st eD hwfg hnd hfresh
  set newRows := (groups.filter (fun g => decide (g.1 ∉ eD))).map exitDesired with hnew
  set ST2 := (sync_inspections_with_orders orders st).1 with hST2
  have hrun1 : ST2 = (deletePhase desired st.inspections (createPhaseExit eD groups st).1).1 := rfl
  have hmem2 : ∀ x, x ∈ ST2.inspections ↔
      (x ∈ st.inspections ++ newRows ∧
        ∀ rr ∈ st.inspections,
          (rr.departureDate ≠ "" ∧ rr.departureDate ∉ desired) → rr.id ≠ x.id) := by
    intro x
    rw [hrun1, deletePhase_mem, hcp, hnew]
  have hkeys2 : ∀ g ∈ groups, g.1 ∈ existingDatesOf ST2.inspections := by
    intro g hg
    obtain ⟨hkne, _, _⟩ := hwfg g hg
    have hgdes : g.1 ∈ desired := List.mem_map_of_mem Prod.fst hg
    rw [existingDatesOf_mem]
    refine ⟨?_, hkne⟩
    by_cases hin : g.1 ∈ eD
    · obtain ⟨⟨r, hr, hrd⟩, _⟩ := existingDatesOf_mem.mp hin
      refine ⟨r, ?_, hrd⟩
      rw [hmem2]
      refine ⟨List.mem_append_left _ hr, ?_⟩
      intro rr hrr ⟨_, hrrdes⟩ hid
      have : rr = r := List.inj_on_of_nodup_map hwf.1 hrr hr hid
      subst this
      exact hrrdes (by rw [hrd]; exact hgdes)
    · refine ⟨exitDesired g, ?_, (exitDesired_date g).1⟩
      rw [hmem2]
      constructor
      · refine List.mem_append_right _ ?_
        rw [hnew]
        exact List.mem_map_of_mem _ (List.mem_filter.mpr ⟨hg, by simpa using hin⟩)
      · intro rr hrr ⟨_, hrrdes⟩ hid
        rw [(exitDesired_date g).2] at hid
        exact hrrdes (by rw [hwf.2 rr hrr g.1 hid]; exact hgdes)
  have hdates2 : ∀ r ∈ ST2.inspections, r.departureDate = "" ∨ r.departureDate ∈ desired := by
    intro r hr
    rw [hmem2] at hr
    obtain ⟨hrm, hsafe⟩ := hr
    rcases List.mem_append.mp hrm with hrm | hrm
    · by_cases hne : r.departureDate = ""
      · exact Or.inl hne
      · by_cases hdes : r.departureDate ∈ desired
        · exact Or.inr hdes
        · exact absurd rfl (hsafe r hrm ⟨hne, hdes⟩)
    · rw [hnew] at hrm
      obtain ⟨g, hgf, hge⟩ := List.mem_map.mp hrm
      have hg : g ∈ groups := (List.mem_filter.mp hgf).1
      right
      rw [← hge, (exitDesired_date g).1]
      exact List.mem_map_of_mem Prod.fst hg
  have hskip := createPhaseExit_skip groups ST2 (existingDatesOf ST2.inspections) hkeys2
  have hdel : (deletePhase desired ST2.inspections ST2).2 = [] := by
    rw [deletePhase_trace]
    rw [List.filter_eq_nil_iff.mpr, List.map_nil]
    intro rr hrr
    rcases hdates2 rr hrr with h | h <;> simp [h]
  show (createPhaseExit (existingDatesOf ST2.inspections) groups ST2).2 ++
      (deletePhase desired ST2.inspections
        (createPhaseExit (existingDatesOf ST2.inspections) groups ST2).1).2 = []
  rw [hskip]
  exact hdel

/-!
## Lemmas: per-date mission creation and reconciliation (cleaning kind)
-/

theorem ccifdd_tasks (d oid u g : String) (st : Store) :
    ∃ l, (create_cleaning_inspection_for_departure_date d oid u g st).1.tasks = st.tasks ++ l := by
  unfold create_cleaning_inspection_for_departure_date
  split
  · exact ⟨[], by simp⟩
  split
  · exact ⟨[], by simp⟩
  split
  · split
    · dsimp only []
      split
      · exact ⟨[], by simp [patchInspection_tasks]⟩
      · exact ⟨[], by simp⟩
    · exact ⟨[], by simp⟩
  · obtain ⟨l, hl⟩ := seedTasks_tasks ("CLEAN-" ++ d) DEFAULT_CLEANING_INSPECTION_TASKS
      (insertInspection st ⟨"CLEAN-" ++ d, oid, u, g, d, DEFAULT_STATUS⟩)
    refine ⟨l, ?_⟩
    simp only []
    rw [hl, insertInspection_tasks]

theorem ccifdd_ops (d oid u g : String) (st : Store) :
    ∀ op ∈ (create_cleaning_inspection_for_departure_date d oid u g st).2,
      (∃ row, op = Op.postMission row) ∨ (∃ row, op = Op.postTask row) ∨
      (∃ iid fs, op = Op.patchMission iid fs) := by
  intro op hop
  unfold create_cleaning_inspection_for_departure_date at hop
  split at hop
  · simp at hop
  split at hop
  · simp at hop
  split at hop
  · split at hop
    · dsimp only [] at hop
      split at hop
      · simp only [List.mem_singleton] at hop
        exact Or.inr (Or.inr ⟨_, _, hop⟩)
      · simp at hop
    · simp at hop
  · simp only [List.mem_cons] at hop
    rcases hop with hop | hop
    · exact Or.inl ⟨_, hop⟩
    · exact Or.inr (Or.inl (seedTasks_ops _ _ _ op hop))

theorem ccifdd_patch_ops (d oid u g : String) (st : Store) :
    ∀ iid fs, Op.patchMission iid fs ∈
        (create_cleaning_inspection_for_departure_date d oid u g st).2 →
      ∃ e ∈ st.inspections, e.departureDate = d ∧ iid = e.id ∧ fs = updateFieldsFor e u g := by
  intro iid fs hop
  unfold create_cleaning_inspection_for_departure_date at hop
  split at hop
  · simp at hop
  split at hop
  · simp at hop
  split at hop
  case _ e rest heq =>
    have he : e ∈ st.inspections ∧ e.departureDate = d := by
      have : e ∈ st.inspections.filter (fun r => r.departureDate == d) := by
        rw [heq]; exact List.mem_cons_self _ _
      rw [List.mem_filter] at this
      exact ⟨this.1, by simpa using this.2⟩
    split at hop
    · dsimp only [] at hop
      split at hop
      · simp only [List.mem_singleton, Op.patchMission.injEq] at hop
        exact ⟨e, he.1, he.2, hop.1, hop.2⟩
      · simp at hop
    · simp at hop
  case _ heq =>
    simp only [List.mem_cons] at hop
    rcases hop with hop | hop
    · simp at hop
    · obtain ⟨row, hrow⟩ := seedTasks_ops _ _ _ _ hop
      simp at hrow

theorem ccifdd_creates (d oid u g : String) (st : Store)
    (hd : d ≠ "") (hu : u ≠ "") (hu2 : pyStrip u ≠ "") (hg : g ≠ "") (hg2 : pyStrip g ≠ "")
    (hnodate : ∀ r ∈ st.inspections, r.departureDate ≠ d)
    (hnoid : ∀ r ∈ st.inspections, r.id ≠ "CLEAN-" ++ d) :
    (create_cleaning_inspection_for_departure_date d oid u g st).1.inspections =
      st.inspections ++ [⟨"CLEAN-" ++ d, oid, u, g, d, DEFAULT_STATUS⟩] := by
  unfold create_cleaning_inspection_for_departure_date
  rw [if_neg hd, if_neg (by push_neg; exact ⟨hu, hu2, hg, hg2⟩)]
  have hfil : st.inspections.filter (fun r => r.departureDate == d) = [] := by
    rw [List.filter_eq_nil_iff]
    intro r hr
    simpa using hnodate r hr
  split
  case _ e rest heq => rw [hfil] at heq; cases heq
  case _ heq =>
    simp only []
    rw [seedTasks_inspections, insertInspection_inspections_no_conflict _ _ hnoid]

/-- The mission row the cleaning creation loop builds for one date group. -/
def cleaningDesired (pySet : List String → List String) (g : String × List Order) :
    Inspection :=
  match g.2 with
  | [] => ⟨"CLEAN-" ++ g.1, "", "", "", g.1, DEFAULT_STATUS⟩
  | o :: _ =>
      ⟨"CLEAN-" ++ g.1, o.id, pyStrip o.unitNumber, cleaningGuestJoin pySet g.2, g.1,
        DEFAULT_STATUS⟩

theorem cleaningDesired_date (pySet : List String → List String) (g : String × List Order) :
    (cleaningDesired pySet g).departureDate = g.1 ∧
      (cleaningDesired pySet g).id = "CLEAN-" ++ g.1 := by
  unfold cleaningDesired
  rcases g with ⟨d, _ | ⟨o, os⟩⟩ <;> exact ⟨rfl, rfl⟩

theorem createPhaseCleaning_state (pySet : List String → List String) (hps : PySetOK pySet) :
    ∀ (gs : List (String × List Order)) (st : Store) (eD : List String),
      GroupsWF gs → (gs.map Prod.fst).Nodup →
      (∀ g ∈ gs, g.1 ∉ eD → ∀ r ∈ st.inspections,
        r.departureDate ≠ g.1 ∧ r.id ≠ "CLEAN-" ++ g.1) →
      (createPhaseCleaning pySet eD gs st).1.inspections =
        st.inspections ++ (gs.filter (fun g => decide (g.1 ∉ eD))).map (cleaningDesired pySet)
  | [], st, eD, _, _, _ => by simp [createPhaseCleaning]
  | (d, os) :: gs, st, eD, hwf, hnd, hfresh => by
      have hwftail : GroupsWF gs := fun g hg => hwf g (List.mem_cons_of_mem _ hg)
      have hndtail : (gs.map Prod.fst).Nodup := by
        simp only [List.map_cons, List.nodup_cons] at hnd
        exact hnd.2
      have hdnot : d ∉ gs.map Prod.fst := by
        simp only [List.map_cons, List.nodup_cons] at hnd
        exact hnd.1
      rw [createPhaseCleaning.eq_def]
      dsimp only []
      by_cases hin : d ∈ eD
      · rw [if_pos hin]
        rw [List.filter_cons_of_neg (by simpa using hin)]
        exact createPhaseCleaning_state pySet hps gs st eD hwftail hndtail
          (fun g hg => hfresh g (List.mem_cons_of_mem _ hg))
      · rw [if_neg hin]
        obtain ⟨hkne, hosne, hmem⟩ := hwf (d, os) (List.mem_cons_self _ _)
        rcases os with _ | ⟨o, os'⟩
        · exact absurd rfl hosne
        dsimp only []
        obtain ⟨ho_elig, _⟩ := hmem o (List.mem_cons_self _ _)
        have hu := (eligibleOrder_iff.mp ho_elig).2.2.1
        have hgj : cleaningGuestJoin pySet (o :: os') ≠ "" ∧
            pyStrip (cleaningGuestJoin pySet (o :: os')) ≠ "" :=
          cleaningGuestJoin_guard hps (eligibleOrder_iff.mp ho_elig).2.2.2
        have hfr := hfresh (d, o :: os') (List.mem_cons_self _ _) hin
        have hcre := ccifdd_creates d o.id (pyStrip o.unitNumber)
          (cleaningGuestJoin pySet (o :: os')) st
          hkne hu (pyStrip_pyStrip_ne hu) hgj.1 hgj.2
          (fun r hr => (hfr r hr).1) (fun r hr => (hfr r hr).2)
        have hfresh2 : ∀ g ∈ gs, g.1 ∉ eD →
            ∀ r ∈ (create_cleaning_inspection_for_departure_date d o.id (pyStrip o.unitNumber)
              (cleaningGuestJoin pySet (o :: os')) st).1.inspections,
              r.departureDate ≠ g.1 ∧ r.id ≠ "CLEAN-" ++ g.1 := by
          intro g hg hgin r hr
          rw [hcre] at hr
          rcases List.mem_append.mp hr with hr | hr
          · exact hfresh g (List.mem_cons_of_mem _ hg) hgin r hr
          · simp only [List.mem_singleton] at hr
            subst hr
            have hdg : d ≠ g.1 := by
              intro he
              exact hdnot (he ▸ List.mem_map_of_mem Prod.fst hg)
            refine ⟨by simpa using hdg, ?_⟩
            intro hids
            exact hdg (string_append_left_cancel hids)
        rw [createPhaseCleaning_state pySet hps gs _ eD hwftail hndtail hfresh2, hcre]
        rw [List.filter_cons_of_pos (by simpa using hin)]
        simp only [List.map_cons, List.append_assoc]
        rfl

theorem createPhaseCleaning_skip (pySet : List String → List String) :
    ∀ (gs : List (String × List Order)) (st : Store) (eD : List String),
      (∀ g ∈ gs, g.1 ∈ eD) → createPhaseCleaning pySet eD gs st = (st, [])
  | [], _, _, _ => rfl
  | (d, os) :: gs, st, eD, h => by
      rw [createPhaseCleaning.eq_def]
      dsimp only []
      rw [if_pos (h (d, os) (List.mem_cons_self _ _))]
      exact createPhaseCleaning_skip pySet gs st eD (fun g hg => h g (List.mem_cons_of_mem _ hg))

theorem createPhaseCleaning_tasks (pySet : List String → List String) (eD : List String) :
    ∀ (gs : List (String × List Order)) (st : Store),
      ∃ l, (createPhaseCleaning pySet eD gs st).1.tasks = st.tasks ++ l
  | [], st => ⟨[], by simp [createPhaseCleaning]⟩
  | (d, os) :: gs, st => by
      rw [createPhaseCleaning.eq_def]
      dsimp only []
      by_cases hin : d ∈ eD
      · rw [if_pos hin]
        exact createPhaseCleaning_tasks pySet eD gs st
      · rw [if_neg hin]
        dsimp only []
        rcases os with _ | ⟨o, os'⟩
        · exact createPhaseCleaning_tasks pySet eD gs st
        · obtain ⟨l1, h1⟩ := ccifdd_tasks d o.id (pyStrip o.unitNumber)
            (cleaningGuestJoin pySet (o :: os')) st
          obtain ⟨l2, h2⟩ := createPhaseCleaning_tasks pySet eD gs
            (create_cleaning_inspection_for_departure_date d o.id (pyStrip o.unitNumber)
              (cleaningGuestJoin pySet (o :: os')) st).1
          exact ⟨l1 ++ l2, by rw [h2, h1, List.append_assoc]⟩

theorem createPhaseCleaning_ops (pySet : List String → List String) (eD : List String) :
    ∀ (gs : List (String × List Order)) (st : Store),
      ∀ op ∈ (createPhaseCleaning pySet eD gs st).2,
        (∃ row, op = Op.postMission row) ∨ (∃ row, op = Op.postTask row) ∨
        (∃ iid fs, op = Op.patchMission iid fs)
  | [], st => by intro op hop; simp [createPhaseCleaning] at hop
  | (d, os) :: gs, st => by
      intro op hop
      rw [createPhaseCleaning.eq_def] at hop
      dsimp only [] at hop
      by_cases hin : d ∈ eD
      · rw [if_pos hin] at hop
        exact createPhaseCleaning_ops pySet eD gs st op hop
      · rw [if_neg hin] at hop
        dsimp only [] at hop
        rcases os with _ | ⟨o, os'⟩
        · simp only [List.nil_append] at hop
          exact createPhaseCleaning_ops pySet eD gs st op hop
        · rcases List.mem_append.mp hop with hop | hop
          · exact ccifdd_ops _ _ _ _ _ op hop
          · exact createPhaseCleaning_ops pySet eD gs _ op hop

/-- Store sanity for the cleaning mission table. -/
def CleanWF (st : Store) : Prop :=
  (st.inspections.map (fun r => r.id)).Nodup ∧
  ∀ r ∈ st.inspections, ∀ s, r.id = "CLEAN-" ++ s → r.departureDate = s

/-- Fault-free idempotence of the cleaning reconciliation pass. -/
theorem sync_cleaning_idem (pySet : List String → List String) (hps : PySetOK pySet)
    (orders : List Order) (st : Store) (hwf : CleanWF st) :
    (sync_cleaning_inspections_with_orders pySet orders
      (sync_cleaning_inspections_with_orders pySet orders st).1).2 = [] := by
  have hwfg := ordersByDate_wf orders
  have hnd := ordersByDate_keys_nodup orders
  set groups := ordersByDate orders with hgroups
  set eD := existingDatesOf st.inspections with heD
  set desired := groups.map Prod.fst with hdesired
  have hfresh : ∀ g ∈ groups, g.1 ∉ eD → ∀ r ∈ st.inspections,
      r.departureDate ≠ g.1 ∧ r.id ≠ "CLEAN-" ++ g.1 := by
    intro g hg hgin r hr
    obtain ⟨hkne, _, _⟩ := hwfg g hg
    constructor
    · intro hrd
      exact hgin (existingDatesOf_mem.mpr ⟨⟨r, hr, hrd⟩, hkne⟩)
    · intro hid
      exact hgin (existingDatesOf_mem.mpr ⟨⟨r, hr, hwf.2 r hr g.1 hid⟩, hkne⟩)
  have hcp := createPhaseCleaning_state pySet hps groups st eD hwfg hnd hfresh
  set newRows := (groups.filter (fun g => decide (g.1 ∉ eD))).map (cleaningDesired pySet)
    with hnew
  set ST2 := (sync_cleaning_inspections_with_orders pySet orders st).1 with hST2
  have hrun1 : ST2 =
      (deletePhase desired st.inspections (createPhaseCleaning pySet eD groups st).1).1 := rfl
  have hmem2 : ∀ x, x ∈ ST2.inspections ↔
      (x ∈ st.inspections ++ newRows ∧
        ∀ rr ∈ st.inspections,
          (rr.departureDate ≠ "" ∧ rr.departureDate ∉ desired) → rr.id ≠ x.id) := by
    intro x
    rw [hrun1, deletePhase_mem, hcp, hnew]
  have hkeys2 : ∀ g ∈ groups, g.1 ∈ existingDatesOf ST2.inspections := by
    intro g hg
    obtain ⟨hkne, _, _⟩ := hwfg g hg
    have hgdes : g.1 ∈ desired := List.mem_map_of_mem Prod.fst hg
    rw [existingDatesOf_mem]
    refine ⟨?_, hkne⟩
    by_cases hin : g.1 ∈ eD
    · obtain ⟨⟨r, hr, hrd⟩, _⟩ := existingDatesOf_mem.mp hin
      refine ⟨r, ?_, hrd⟩
      rw [hmem2]
      refine ⟨List.mem_append_left _ hr, ?_⟩
      intro rr hrr ⟨_, hrrdes⟩ hid
      have : rr = r := List.inj_on_of_nodup_map hwf.1 hrr hr hid
      subst this
      exact hrrdes (by rw [hrd]; exact hgdes)
    · refine ⟨cleaningDesired pySet g, ?_, (cleaningDesired_date pySet g).1⟩
      rw [hmem2]
      constructor
      · refine List.mem_append_right _ ?_
        rw [hnew]
        exact List.mem_map_of_mem _ (List.mem_filter.mpr ⟨hg, by simpa using hin⟩)
      · intro rr hrr ⟨_, hrrdes⟩ hid
        rw [(cleaningDesired_date pySet g).2] at hid
        exact hrrdes (by rw [hwf.2 rr hrr g.1 hid]; exact hgdes)
  have hdates2 : ∀ r ∈ ST2.inspections, r.departureDate = "" ∨ r.departureDate ∈ desired := by
    intro r hr
    rw [hmem2] at hr
    obtain ⟨hrm, hsafe⟩ := hr
    rcases List.mem_append.mp hrm with hrm | hrm
    · by_cases hne : r.departureDate = ""
      · exact Or.inl hne
      · by_cases hdes : r.departureDate ∈ desired
        · exact Or.inr hdes
        · exact absurd rfl (hsafe r hrm ⟨hne, hdes⟩)
    · rw [hnew] at hrm
      obtain ⟨g, hgf, hge⟩ := List.mem_map.mp hrm
      have hg : g ∈ groups := (List.mem_filter.mp hgf).1
      right
      rw [← hge, (cleaningDesired_date pySet g).1]
      exact List.mem_map_of_mem Prod.fst hg
  have hskip := createPhaseCleaning_skip pySet groups ST2 (existingDatesOf ST2.inspections) hkeys2
  have hdel : (deletePhase desired ST2.inspections ST2).2 = [] := by
    rw [deletePhase_trace]
    rw [List.filter_eq_nil_iff.mpr, List.map_nil]
    intro rr hrr
    rcases hdates2 rr hrr with h | h <;> simp [h]
  show (createPhaseCleaning pySet (existingDatesOf ST2.inspections) groups ST2).2 ++
      (deletePhase desired ST2.inspections
        (createPhaseCleaning pySet (existingDatesOf ST2.inspections) groups ST2).1).2 = []
  rw [hskip]
  exact hdel

/-!
## Lemmas: monthly reconciliation
-/

theorem seedTasksM_inspections (iid : String) :
    ∀ (tmpl : List TemplateTask) (st : MStore),
      (seedTasksM iid st tmpl).1.inspections = st.inspections
  | [], _ => rfl
  | t :: rest, st => by
      rw [seedTasksM]
      simp only []
      rw [seedTasksM_inspections iid rest]
      unfold insertTaskRowM
      split <;> rfl

theorem monthlyPairs_mem {m1 m2 : String} {p : String × String} :
    p ∈ monthlyPairs m1 m2 ↔ p.1 ∈ UNIT_NAMES ∧ (p.2 = m1 ∨ p.2 = m2) := by
  unfold monthlyPairs
  rw [List.mem_flatMap]
  constructor
  · rintro ⟨u, hu, hp⟩
    simp only [List.mem_cons, List.mem_singleton] at hp
    rcases hp with hp | hp | hp
    · subst hp; exact ⟨hu, Or.inl rfl⟩
    · subst hp; exact ⟨hu, Or.inr rfl⟩
    · simp at hp
  · rintro ⟨hu, hm⟩
    refine ⟨p.1, hu, ?_⟩
    rcases hm with hm | hm
    · simp [← hm]
    · simp [← hm]

theorem monthlyPairs_nodup {m1 m2 : String} (h : m1 ≠ m2) :
    (monthlyPairs m1 m2).Nodup := by
  have hgen : ∀ us : List String, us.Nodup →
      (us.flatMap (fun u => [(u, m1), (u, m2)])).Nodup := by
    intro us
    induction us with
    | nil => intro; simp
    | cons u us ih =>
        intro hnd
        rw [List.nodup_cons] at hnd
        rw [List.flatMap_cons, List.nodup_append]
        refine ⟨by simp [h], ih hnd.2, ?_⟩
        intro x hx hx2
        rw [List.mem_flatMap] at hx2
        obtain ⟨u2, hu2, hxin⟩ := hx2
        simp only [List.mem_cons, List.mem_singleton] at hx hxin
        have hu2ne : u2 ≠ u := by
          intro he; exact hnd.1 (he ▸ hu2)
        rcases hx with hx | hx | hx <;> rcases hxin with h2 | h2 | h2 <;> simp_all
  exact hgen UNIT_NAMES (by decide)

theorem unitNames_facts :
    (UNIT_NAMES.map replaceSpaceDash).Nodup ∧
      ∀ u ∈ UNIT_NAMES, pyStrip u = u ∧ u ≠ "" := by
  constructor
  · decide
  · decide

theorem monthlyId_inj {m1 m2 : String} (hlen : m1.length = m2.length)
    {p q : String × String} (hp : p ∈ monthlyPairs m1 m2) (hq : q ∈ monthlyPairs m1 m2)
    (h : monthlyId p.1 p.2 = monthlyId q.1 q.2) : p = q := by
  obtain ⟨hpu, hpm⟩ := monthlyPairs_mem.mp hp
  obtain ⟨hqu, hqm⟩ := monthlyPairs_mem.mp hq
  have hmlen : p.2.length = q.2.length := by
    rcases hpm with h1 | h1 <;> rcases hqm with h2 | h2 <;> rw [h1, h2] <;> omega
  unfold monthlyId at h
  obtain ⟨hpre, hm⟩ := string_append_inj h hmlen
  have hdash : ("MONTHLY-" ++ replaceSpaceDash p.1) ++ "-" =
      ("MONTHLY-" ++ replaceSpaceDash q.1) ++ "-" := by
    calc ("MONTHLY-" ++ replaceSpaceDash p.1) ++ "-"
        = "MONTHLY-" ++ replaceSpaceDash p.1 ++ "-" := rfl
      _ = "MONTHLY-" ++ replaceSpaceDash q.1 ++ "-" := hpre
      _ = ("MONTHLY-" ++ replaceSpaceDash q.1) ++ "-" := rfl
  obtain ⟨hr, _⟩ := string_append_inj hdash rfl
  have hru : replaceSpaceDash p.1 = replaceSpaceDash q.1 :=
    string_append_left_cancel (by
      calc "MONTHLY-" ++ replaceSpaceDash p.1
          = ("MONTHLY-" ++ replaceSpaceDash p.1) := rfl
        _ = ("MONTHLY-" ++ replaceSpaceDash q.1) := hr)
  have hu : p.1 = q.1 := List.inj_on_of_nodup_map unitNames_facts.1 hpu hqu hru
  exact Prod.ext hu hm

/-- The mission row the monthly creation loop builds for one roster key. -/
def monthlyDesired (p : String × String) : MonthlyInspection :=
  ⟨monthlyId p.1 p.2, p.1, p.2, DEFAULT_STATUS⟩

theorem monthlyKeysOf_mem {rows : List MonthlyInspection} {p : String × String} :
    p ∈ monthlyKeysOf rows ↔
      ∃ r ∈ rows, pyStrip r.unitNumber = p.1 ∧ r.inspectionMonth = p.2 ∧
        pyStrip r.unitNumber ≠ "" ∧ r.inspectionMonth ≠ "" := by
  unfold monthlyKeysOf
  rw [List.mem_map]
  constructor
  · rintro ⟨r, hr, hpr⟩
    rw [List.mem_filter] at hr
    have h2 := hr.2
    simp only [Bool.and_eq_true, decide_eq_true_iff] at h2
    refine ⟨r, hr.1, ?_, ?_, h2.1, h2.2⟩
    · rw [← hpr]
    · rw [← hpr]
  · rintro ⟨r, hr, h1, h2, h3, h4⟩
    refine ⟨r, ?_, ?_⟩
    · rw [List.mem_filter]
      refine ⟨hr, ?_⟩
      simp only [Bool.and_eq_true, decide_eq_true_iff]
      exact ⟨h3, h4⟩
    · rw [h1, h2]

theorem createPhaseMonthly_state :
    ∀ (ps : List (String × String)) (st : MStore) (eK : List (String × String)),
      ps.Nodup →
      (∀ p ∈ ps, ∀ q ∈ ps, monthlyId p.1 p.2 = monthlyId q.1 q.2 → p = q) →
      (∀ p ∈ ps, p ∉ eK → ∀ r ∈ st.inspections, r.id ≠ monthlyId p.1 p.2) →
      (createPhaseMonthly eK ps st).1.inspections =
        st.inspections ++ (ps.filter (fun p => decide (p ∉ eK))).map monthlyDesired
  | [], st, eK, _, _, _ => by simp [createPhaseMonthly]
  | (u, m) :: ps, st, eK, hnd, hinj, hfresh => by
      have hndtail : ps.Nodup := (List.nodup_cons.mp hnd).2
      have hheadnot : (u, m) ∉ ps := (List.nodup_cons.mp hnd).1
      have hinjtail : ∀ p ∈ ps, ∀ q ∈ ps, monthlyId p.1 p.2 = monthlyId q.1 q.2 → p = q :=
        fun p hp q hq => hinj p (List.mem_cons_of_mem _ hp) q (List.mem_cons_of_mem _ hq)
      rw [createPhaseMonthly.eq_def]
      dsimp only []
      by_cases hin : (u, m) ∈ eK
      · rw [if_pos hin]
        rw [List.filter_cons_of_neg (by simpa using hin)]
        exact createPhaseMonthly_state ps st eK hndtail hinjtail
          (fun p hp => hfresh p (List.mem_cons_of_mem _ hp))
      · rw [if_neg hin]
        have hnoconf : (st.inspections.any (fun r => r.id == monthlyId u m)) = false := by
          rw [List.any_eq_false]
          intro r hr
          simpa using hfresh (u, m) (List.mem_cons_self _ _) hin r hr
        rw [hnoconf]
        simp only [Bool.false_eq_true, if_false]
        have hfresh2 : ∀ p ∈ ps, p ∉ eK →
            ∀ r ∈ (seedTasksM (monthlyId u m)
              { st with inspections := st.inspections ++ [⟨monthlyId u m, u, m, DEFAULT_STATUS⟩] }
              DEFAULT_MONTHLY_INSPECTION_TASKS).1.inspections,
              r.id ≠ monthlyId p.1 p.2 := by
          intro p hp hpin r hr
          rw [seedTasksM_inspections] at hr
          simp only [] at hr
          rcases List.mem_append.mp hr with hr | hr
          · exact hfresh p (List.mem_cons_of_mem _ hp) hpin r hr
          · simp only [List.mem_singleton] at hr
            subst hr
            intro hid
            have := hinj (u, m) (List.mem_cons_self _ _) p (List.mem_cons_of_mem _ hp) hid
            exact hheadnot (this ▸ hp)
        rw [createPhaseMonthly_state ps _ eK hndtail hinjtail hfresh2]
        rw [seedTasksM_inspections]
        rw [List.filter_cons_of_pos (by simpa using hin)]
        simp only [List.map_cons, List.append_assoc]
        rfl

theorem createPhaseMonthly_skip :
    ∀ (ps : List (String × String)) (st : MStore) (eK : List (String × String)),
      (∀ p ∈ ps, p ∈ eK) → createPhaseMonthly eK ps st = (st, [])
  | [], _, _, _ => rfl
  | (u, m) :: ps, st, eK, h => by
      rw [createPhaseMonthly.eq_def]
      dsimp only []
      rw [if_pos (h (u, m) (List.mem_cons_self _ _))]
      exact createPhaseMonthly_skip ps st eK (fun p hp => h p (List.mem_cons_of_mem _ hp))

theorem deletePhaseMonthly_mem (keep : List String) :
    ∀ (rows : List MonthlyInspection) (st : MStore) (x : MonthlyInspection),
      x ∈ (deletePhaseMonthly keep rows st).1.inspections ↔
        x ∈ st.inspections ∧
          ∀ rr ∈ rows, (rr.inspectionMonth ≠ "" ∧ rr.inspectionMonth ∉ keep) → rr.id ≠ x.id
  | [], st, x => by simp [deletePhaseMonthly]
  | r :: rows, st, x => by
      rw [deletePhaseMonthly]
      by_cases hc : r.inspectionMonth ≠ "" ∧ r.inspectionMonth ∉ keep
      · rw [if_pos hc]
        dsimp only []
        rw [deletePhaseMonthly_mem keep rows _ x]
        simp only [List.mem_filter, decide_eq_true_iff]
        constructor
        · rintro ⟨⟨hx, hne⟩, hall⟩
          refine ⟨hx, ?_⟩
          rw [List.forall_mem_cons]
          exact ⟨fun _ => Ne.symm hne, hall⟩
        · rintro ⟨hx, hall⟩
          rw [List.forall_mem_cons] at hall
          exact ⟨⟨hx, Ne.symm (hall.1 hc)⟩, hall.2⟩
      · rw [if_neg hc]
        rw [deletePhaseMonthly_mem keep rows st x]
        constructor
        · rintro ⟨hx, hall⟩
          refine ⟨hx, ?_⟩
          rw [List.forall_mem_cons]
          exact ⟨fun h => absurd h hc, hall⟩
        · rintro ⟨hx, hall⟩
          rw [List.forall_mem_cons] at hall
          exact ⟨hx, hall.2⟩

theorem deletePhaseMonthly_trace (keep : List String) :
    ∀ (rows : List MonthlyInspection) (st : MStore),
      (deletePhaseMonthly keep rows st).2 =
        (rows.filter (fun rr =>
          decide (rr.inspectionMonth ≠ "") && decide (rr.inspectionMonth ∉ keep))).map
            (fun rr => Op.deleteMonthly rr.id)
  | [], _ => rfl
  | r :: rows, st => by
      rw [deletePhaseMonthly]
      by_cases hc : r.inspectionMonth ≠ "" ∧ r.inspectionMonth ∉ keep
      · rw [if_pos hc]
        dsimp only []
        rw [deletePhaseMonthly_trace keep rows]
        rw [List.filter_cons_of_pos (by simp [hc.1, hc.2])]
        simp
      · rw [if_neg hc]
        rw [deletePhaseMonthly_trace keep rows st]
        rw [List.filter_cons_of_neg (by simpa [not_and_or] using hc)]

/-- Store sanity for the monthly mission table, relative to the two synced
months: ids are unique, and a row carrying a derived roster id is the
mission of that roster key. -/
def MonthlyWF (m1 m2 : String) (st : MStore) : Prop :=
  (st.inspections.map (fun r => r.id)).Nodup ∧
  ∀ r ∈ st.inspections, ∀ p ∈ monthlyPairs m1 m2, r.id = monthlyId p.1 p.2 →
    pyStrip r.unitNumber = p.1 ∧ r.inspectionMonth = p.2

/-- Fault-free idempotence of the monthly reconciliation pass. -/
theorem sync_monthly_idem (m1 m2 : String) (st : MStore)
    (hwf : MonthlyWF m1 m2 st) (hne : m1 ≠ m2) (hlen : m1.length = m2.length)
    (hm1 : m1 ≠ "") (hm2 : m2 ≠ "") :
    (sync_monthly_inspections m1 m2 (sync_monthly_inspections m1 m2 st).1).2 = [] := by
  set pairs := monthlyPairs m1 m2 with hpairs
  set eK := monthlyKeysOf st.inspections with heK
  have hnd := monthlyPairs_nodup hne
  have hinj : ∀ p ∈ pairs, ∀ q ∈ pairs, monthlyId p.1 p.2 = monthlyId q.1 q.2 → p = q :=
    fun p hp q hq h => monthlyId_inj hlen hp hq h
  have hkeymem : ∀ p ∈ pairs, p.1 ≠ "" ∧ p.2 ≠ "" := by
    intro p hp
    obtain ⟨hu, hm⟩ := monthlyPairs_mem.mp hp
    refine ⟨(unitNames_facts.2 p.1 hu).2, ?_⟩
    rcases hm with h | h <;> rw [h] <;> assumption
  have hfresh : ∀ p ∈ pairs, p ∉ eK → ∀ r ∈ st.inspections, r.id ≠ monthlyId p.1 p.2 := by
    intro p hp hpin r hr hid
    obtain ⟨h1, h2⟩ := hwf.2 r hr p hp hid
    exact hpin (monthlyKeysOf_mem.mpr ⟨r, hr, h1, h2, by rw [h1]; exact (hkeymem p hp).1,
      by rw [h2]; exact (hkeymem p hp).2⟩)
  have hcp := createPhaseMonthly_state pairs st eK hnd hinj hfresh
  set newRows := (pairs.filter (fun p => decide (p ∉ eK))).map monthlyDesired with hnew
  set ST2 := (sync_monthly_inspections m1 m2 st).1 with hST2
  have hrun1 : ST2 =
      (deletePhaseMonthly [m1, m2] st.inspections (createPhaseMonthly eK pairs st).1).1 := rfl
  have hmem2 : ∀ x, x ∈ ST2.inspections ↔
      (x ∈ st.inspections ++ newRows ∧
        ∀ rr ∈ st.inspections,
          (rr.inspectionMonth ≠ "" ∧ rr.inspectionMonth ∉ [m1, m2]) → rr.id ≠ x.id) := by
    intro x
    rw [hrun1, deletePhaseMonthly_mem, hcp, hnew]
  have hkeys2 : ∀ p ∈ pairs, p ∈ monthlyKeysOf ST2.inspections := by
    intro p hp
    obtain ⟨hu, hm⟩ := monthlyPairs_mem.mp hp
    rw [monthlyKeysOf_mem]
    by_cases hin : p ∈ eK
    · obtain ⟨r, hr, h1, h2, h3, h4⟩ := monthlyKeysOf_mem.mp hin
      refine ⟨r, ?_, h1, h2, h3, h4⟩
      rw [hmem2]
      refine ⟨List.mem_append_left _ hr, ?_⟩
      intro rr hrr ⟨_, hrrm⟩ hid
      have : rr = r := List.inj_on_of_nodup_map hwf.1 hrr hr hid
      subst this
      apply hrrm
      rw [h2]
      rcases hm with h | h <;> simp [h]
    · refine ⟨monthlyDesired p, ?_, ?_, rfl, ?_, (hkeymem p hp).2⟩
      · rw [hmem2]
        constructor
        · refine List.mem_append_right _ ?_
          rw [hnew]
          exact List.mem_map_of_mem _ (List.mem_filter.mpr ⟨hp, by simpa using hin⟩)
        · intro rr hrr ⟨_, hrrm⟩ hid
          obtain ⟨h1, h2⟩ := hwf.2 rr hrr p hp hid
          apply hrrm
          rw [h2]
          rcases hm with h | h <;> simp [h]
      · exact (unitNames_facts.2 p.1 hu).1
      · show pyStrip p.1 ≠ ""
        rw [(unitNames_facts.2 p.1 hu).1]
        exact (hkeymem p hp).1
  have hmonths2 : ∀ r ∈ ST2.inspections,
      r.inspectionMonth = "" ∨ r.inspectionMonth ∈ [m1, m2] := by
    intro r hr
    rw [hmem2] at hr
    obtain ⟨hrm, hsafe⟩ := hr
    rcases List.mem_append.mp hrm with hrm | hrm
    · by_cases hne2 : r.inspectionMonth = ""
      · exact Or.inl hne2
      · by_cases hdes : r.inspectionMonth ∈ [m1, m2]
        · exact Or.inr hdes
        · exact absurd rfl (hsafe r hrm ⟨hne2, hdes⟩)
    · rw [hnew] at hrm
      obtain ⟨p, hpf, hpe⟩ := List.mem_map.mp hrm
      have hpin : p ∈ pairs := (List.mem_filter.mp hpf).1
      obtain ⟨_, hm⟩ := monthlyPairs_mem.mp hpin
      right
      rw [← hpe]
      show p.2 ∈ [m1, m2]
      rcases hm with h | h <;> simp [h]
  have hskip := createPhaseMonthly_skip pairs ST2 (monthlyKeysOf ST2.inspections) hkeys2
  have hdel : (deletePhaseMonthly [m1, m2] ST2.inspections ST2).2 = [] := by
    rw [deletePhaseMonthly_trace]
    rw [List.filter_eq_nil_iff.mpr, List.map_nil]
    intro rr hrr
    rcases hmonths2 rr hrr with h | h <;> simp [h]
  show (createPhaseMonthly (monthlyKeysOf ST2.inspections) pairs ST2).2 ++
      (deletePhaseMonthly [m1, m2] ST2.inspections
        (createPhaseMonthly (monthlyKeysOf ST2.inspections) pairs ST2).1).2 = []
  rw [hskip]
  exact hdel

/-!
## Lemmas: task-store effects of the endpoint operations
-/

theorem filter_map_patch (tid iid B : String) (h : B ≠ iid) (nm : Option String)
    (cv : Option PVal) :
    ∀ l : List ITask,
      (l.map (fun r => if r.id = tid ∧ r.inspectionId = iid then
          { r with name := nm.getD r.name, completed := cv.getD r.completed } else r)).filter
        (fun r => r.inspectionId == B) =
      l.filter (fun r => r.inspectionId == B)
  | [] => rfl
  | r :: l => by
      simp only [List.map_cons]
      by_cases hc : r.id = tid ∧ r.inspectionId = iid
      · rw [if_pos hc]
        rw [List.filter_cons_of_neg (by simp [hc.2, Ne.symm h]),
          List.filter_cons_of_neg (by simp [hc.2, Ne.symm h])]
        exact filter_map_patch tid iid B h nm cv l
      · rw [if_neg hc]
        cases hB : (r.inspectionId == B) with
        | false =>
            rw [List.filter_cons_of_neg (by simp [hB]),
              List.filter_cons_of_neg (by simp [hB])]
            exact filter_map_patch tid iid B h nm cv l
        | true =>
            rw [List.filter_cons_of_pos (by simp [hB]),
              List.filter_cons_of_pos (by simp [hB])]
            rw [filter_map_patch tid iid B h nm cv l]

theorem applyTaskPatch_filter_ne {st : Store} {tid iid B : String} {nm : Option String}
    {cv : Option PVal} (h : B ≠ iid) :
    (applyTaskPatch st tid iid nm cv).tasks.filter (fun r => r.inspectionId == B) =
      st.tasks.filter (fun r => r.inspectionId == B) :=
  filter_map_patch tid iid B h nm cv st.tasks

theorem appendTaskRow_filter_ne {st : Store} {row : ITask} {B : String}
    (h : B ≠ row.inspectionId) :
    (appendTaskRow st row).tasks.filter (fun r => r.inspectionId == B) =
      st.tasks.filter (fun r => r.inspectionId == B) := by
  unfold appendTaskRow
  simp only []
  rw [List.filter_append]
  rw [List.filter_cons_of_neg (by simp [Ne.symm h]), List.filter_nil, List.append_nil]

theorem deleteTaskRow_filter_ne {st : Store} {tid iid B : String} (h : B ≠ iid) :
    (deleteTaskRow st tid iid).tasks.filter (fun r => r.inspectionId == B) =
      st.tasks.filter (fun r => r.inspectionId == B) := by
  unfold deleteTaskRow
  simp only []
  induction st.tasks with
  | nil => rfl
  | cons r l ih =>
      by_cases hc : r.id = tid ∧ r.inspectionId = iid
      · rw [List.filter_cons_of_neg (by simp [hc.1, hc.2])]
        rw [List.filter_cons_of_neg (by simp [hc.2, Ne.symm h])]
        exact ih
      · rw [List.filter_cons_of_pos (by simp only [decide_eq_true_iff]; exact hc)]
        cases hB : (r.inspectionId == B) with
        | false =>
            rw [List.filter_cons_of_neg (by simp [hB]), List.filter_cons_of_neg (by simp [hB])]
            exact ih
        | true =>
            rw [List.filter_cons_of_pos (by simp [hB]), List.filter_cons_of_pos (by simp [hB])]
            rw [ih]

theorem applyTaskPatch_pairs {st : Store} {tid iid : String} {nm : Option String}
    {cv : Option PVal} {a b : String}
    (h : ∃ r ∈ st.tasks, r.id = a ∧ r.inspectionId = b) :
    ∃ r ∈ (applyTaskPatch st tid iid nm cv).tasks, r.id = a ∧ r.inspectionId = b := by
  obtain ⟨r, hr, h1, h2⟩ := h
  refine ⟨if r.id = tid ∧ r.inspectionId = iid then
      { r with name := nm.getD r.name, completed := cv.getD r.completed } else r,
    List.mem_map_of_mem _ hr, ?_⟩
  split <;> exact ⟨h1, h2⟩

theorem appendTaskRow_pairs {st : Store} {row : ITask} {a b : String}
    (h : ∃ r ∈ st.tasks, r.id = a ∧ r.inspectionId = b) :
    ∃ r ∈ (appendTaskRow st row).tasks, r.id = a ∧ r.inspectionId = b := by
  obtain ⟨r, hr, h1, h2⟩ := h
  exact ⟨r, List.mem_append_left _ hr, h1, h2⟩

/-- Shape of the operations the per-task loop appends: dual-scoped task
writes carrying a strict-boolean `completed`, never a delete. -/
def stepOpOK (iid : String) : Op → Prop
  | Op.patchTask _ i nm cv => i = iid ∧ (∃ n, nm = some n) ∧ ∃ b, cv = some (PVal.pbool b)
  | Op.postTask row => row.inspectionId = iid ∧ ∃ b, row.completed = PVal.pbool b
  | _ => False

theorem upsertStep_count (env : Env) (uuids : Uuids) (iid : String)
    (existingIds : List String) (t : TaskPayload) (s : UpLoopState) :
    (upsertStep env uuids iid existingIds t s).saved.length +
      (upsertStep env uuids iid existingIds t s).failed.length =
      s.saved.length + s.failed.length + 1 := by
  unfold upsertStep
  dsimp only []
  repeat' split
  all_goals simp [List.length_append]
  all_goals omega

theorem upsertStep_trace (env : Env) (uuids : Uuids) (iid : String)
    (existingIds : List String) (t : TaskPayload) (s : UpLoopState) :
    ∀ op ∈ (upsertStep env uuids iid existingIds t s).trace,
      op ∈ s.trace ∨ stepOpOK iid op := by
  unfold upsertStep
  dsimp only []
  repeat' split
  all_goals intro op hop
  all_goals simp only [List.mem_append, List.mem_singleton] at hop
  all_goals first
    | (rcases hop with (hop | rfl) | rfl
       · exact Or.inl hop
       · right; simp [stepOpOK]
       · right; simp [stepOpOK])
    | (rcases hop with hop | rfl
       · exact Or.inl hop
       · right; simp [stepOpOK])

theorem upsertStep_inspections (env : Env) (uuids : Uuids) (iid : String)
    (existingIds : List String) (t : TaskPayload) (s : UpLoopState) :
    (upsertStep env uuids iid existingIds t s).store.inspections = s.store.inspections := by
  unfold upsertStep
  dsimp only []
  repeat' split
  all_goals rfl

theorem upsertStep_frame (env : Env) (uuids : Uuids) (iid : String)
    (existingIds : List String) (t : TaskPayload) (s : UpLoopState) :
    ∀ B, B ≠ iid →
      (upsertStep env uuids iid existingIds t s).store.tasks.filter
        (fun r => r.inspectionId == B) =
      s.store.tasks.filter (fun r => r.inspectionId == B) := by
  unfold upsertStep
  dsimp only []
  repeat' split
  all_goals intro B hB
  all_goals first
    | rfl
    | exact applyTaskPatch_filter_ne hB
    | exact appendTaskRow_filter_ne hB

theorem upsertStep_pairs (env : Env) (uuids : Uuids) (iid : String)
    (existingIds : List String) (t : TaskPayload) (s : UpLoopState) :
    ∀ a b, (∃ r ∈ s.store.tasks, r.id = a ∧ r.inspectionId = b) →
      ∃ r ∈ (upsertStep env uuids iid existingIds t s).store.tasks,
        r.id = a ∧ r.inspectionId = b := by
  unfold upsertStep
  dsimp only []
  repeat' split
  all_goals intro a b h
  all_goals first
    | exact h
    | exact applyTaskPatch_pairs h
    | exact appendTaskRow_pairs h

theorem upsertLoop_count (env : Env) (uuids : Uuids) (iid : String)
    (existingIds : List String) :
    ∀ (ts : List TaskPayload) (s : UpLoopState),
      (upsertLoop env uuids iid existingIds ts s).saved.length +
        (upsertLoop env uuids iid existingIds ts s).failed.length =
        s.saved.length + s.failed.length + ts.length
  | [], s => by simp [upsertLoop]
  | t :: ts, s => by
      rw [upsertLoop]
      rw [upsertLoop_count env uuids iid existingIds ts]
      rw [upsertStep_count]
      simp only [List.length_cons]
      omega

theorem upsertLoop_trace (env : Env) (uuids : Uuids) (iid : String)
    (existingIds : List String) :
    ∀ (ts : List TaskPayload) (s : UpLoopState),
      ∀ op ∈ (upsertLoop env uuids iid existingIds ts s).trace,
        op ∈ s.trace ∨ stepOpOK iid op
  | [], _ => by intro op hop; exact Or.inl hop
  | t :: ts, s => by
      intro op hop
      rw [upsertLoop] at hop
      rcases upsertLoop_trace env uuids iid existingIds ts _ op hop with h | h
      · exact upsertStep_trace env uuids iid existingIds t s op h
      · exact Or.inr h

theorem upsertLoop_inspections (env : Env) (uuids : Uuids) (iid : String)
    (existingIds : List String) :
    ∀ (ts : List TaskPayload) (s : UpLoopState),
      (upsertLoop env uuids iid existingIds ts s).store.inspections = s.store.inspections
  | [], _ => rfl
  | t :: ts, s => by
      rw [upsertLoop]
      rw [upsertLoop_inspections env uuids iid existingIds ts]
      exact upsertStep_inspections env uuids iid existingIds t s

theorem upsertLoop_frame (env : Env) (uuids : Uuids) (iid : String)
    (existingIds : List String) :
    ∀ (ts : List TaskPayload) (s : UpLoopState) (B : String), B ≠ iid →
      (upsertLoop env uuids iid existingIds ts s).store.tasks.filter
        (fun r => r.inspectionId == B) =
      s.store.tasks.filter (fun r => r.inspectionId == B)
  | [], _, _, _ => rfl
  | t :: ts, s, B, hB => by
      rw [upsertLoop]
      rw [upsertLoop_frame env uuids iid existingIds ts _ B hB]
      exact upsertStep_frame env uuids iid existingIds t s B hB

theorem upsertLoop_pairs (env : Env) (uuids : Uuids) (iid : String)
    (existingIds : List String) :
    ∀ (ts : List TaskPayload) (s : UpLoopState) (a b : String),
      (∃ r ∈ s.store.tasks, r.id = a ∧ r.inspectionId = b) →
      ∃ r ∈ (upsertLoop env uuids iid existingIds ts s).store.tasks,
        r.id = a ∧ r.inspectionId = b
  | [], _, _, _, h => h
  | t :: ts, s, a, b, h => by
      rw [upsertLoop]
      exact upsertLoop_pairs env uuids iid existingIds ts _ a b
        (upsertStep_pairs env uuids iid existingIds t s a b h)

theorem cleanupLoop_trace (env : Env) (iid : String) :
    ∀ (ds : List String) (s : UpLoopState),
      ∀ op ∈ (cleanupLoop env iid ds s).trace,
        op ∈ s.trace ∨ ∃ d, op = Op.deleteTask d iid
  | [], _ => by intro op hop; exact Or.inl hop
  | d :: ds, s => by
      intro op hop
      rw [cleanupLoop] at hop
      dsimp only [] at hop
      have h2 := cleanupLoop_trace env iid ds _ op hop
      rcases h2 with h2 | h2
      · revert h2
        split
        · split
          all_goals intro h2
          all_goals simp only [List.mem_append, List.mem_singleton] at h2
          all_goals rcases h2 with h2 | rfl
          · exact Or.inl h2
          · exact Or.inr ⟨d, rfl⟩
          · exact Or.inl h2
          · exact Or.inr ⟨d, rfl⟩
        · intro h2
          simp only [List.mem_append, List.mem_singleton] at h2
          rcases h2 with h2 | rfl
          · exact Or.inl h2
          · exact Or.inr ⟨d, rfl⟩
      · exact Or.inr h2

theorem cleanupLoop_inspections (env : Env) (iid : String) :
    ∀ (ds : List String) (s : UpLoopState),
      (cleanupLoop env iid ds s).store.inspections = s.store.inspections
  | [], _ => rfl
  | d :: ds, s => by
      rw [cleanupLoop]
      dsimp only []
      rw [cleanupLoop_inspections env iid ds]
      split
      · split <;> rfl
      · rfl

theorem cleanupLoop_frame (env : Env) (iid : String) :
    ∀ (ds : List String) (s : UpLoopState) (B : String), B ≠ iid →
      (cleanupLoop env iid ds s).store.tasks.filter (fun r => r.inspectionId == B) =
        s.store.tasks.filter (fun r => r.inspectionId == B)
  | [], _, _, _ => rfl
  | d :: ds, s, B, hB => by
      rw [cleanupLoop]
      dsimp only []
      rw [cleanupLoop_frame env iid ds _ B hB]
      split
      · split
        · exact deleteTaskRow_filter_ne hB
        · rfl
      · rfl

theorem stepOpOK_not_delete {iid : String} {op : Op} (h : stepOpOK iid op) :
    op.isTaskDelete = false := by
  cases op <;> simp [stepOpOK, Op.isTaskDelete] at h ⊢

theorem taskPhase_failed_delete (p : InspPayload) (env : Env) (uuids : Uuids)
    (iid : String) (u0 : Nat) (st1 : Store) (tr : List Op)
    (h : (taskPhase p env uuids iid u0 st1 tr).2.2.2 ≠ []) :
    (∀ op ∈ (taskPhase p env uuids iid u0 st1 tr).2.1, op.isTaskDelete = true → op ∈ tr) ∧
    (∀ a b : String, (∃ r ∈ st1.tasks, r.id = a ∧ r.inspectionId = b) →
      ∃ r ∈ (taskPhase p env uuids iid u0 st1 tr).1.tasks, r.id = a ∧ r.inspectionId = b) := by
  revert h
  unfold taskPhase
  dsimp only []
  split
  case isTrue hgate =>
    intro h
    exact absurd hgate.2.2 h
  case isFalse hgate =>
    intro _
    constructor
    · intro op hop hdel
      rcases upsertLoop_trace env uuids iid _ p.tasks _ op hop with h2 | h2
      · simp only [List.mem_append, List.mem_singleton] at h2
        rcases h2 with h2 | rfl
        · exact h2
        · simp [Op.isTaskDelete] at hdel
      · rw [stepOpOK_not_delete h2] at hdel
        cases hdel
    · intro a b hab
      exact upsertLoop_pairs env uuids iid _ p.tasks _ a b hab

theorem taskPhase_delete_gate (p : InspPayload) (env : Env) (uuids : Uuids)
    (iid : String) (u0 : Nat) (st1 : Store) (tr : List Op)
    (h : ∃ op ∈ (taskPhase p env uuids iid u0 st1 tr).2.1,
      op.isTaskDelete = true ∧ op ∉ tr) :
    (taskPhase p env uuids iid u0 st1 tr).2.2.2 = [] ∧
      (taskPhase p env uuids iid u0 st1 tr).2.2.1.length = p.tasks.length := by
  revert h
  unfold taskPhase
  dsimp only []
  split
  case isTrue hgate =>
    intro _
    exact ⟨hgate.2.2, hgate.2.1⟩
  case isFalse hgate =>
    rintro ⟨op, hop, hdel, hnotin⟩
    exfalso
    rcases upsertLoop_trace env uuids iid _ p.tasks _ op hop with h2 | h2
    · simp only [List.mem_append, List.mem_singleton] at h2
      rcases h2 with h2 | rfl
      · exact hnotin h2
      · simp [Op.isTaskDelete] at hdel
    · rw [stepOpOK_not_delete h2] at hdel
      cases hdel

theorem taskPhase_frame (p : InspPayload) (env : Env) (uuids : Uuids)
    (iid : String) (u0 : Nat) (st1 : Store) (tr : List Op) (B : String) (hB : B ≠ iid) :
    (taskPhase p env uuids iid u0 st1 tr).1.tasks.filter (fun r => r.inspectionId == B) =
      st1.tasks.filter (fun r => r.inspectionId == B) := by
  unfold taskPhase
  dsimp only []
  split
  · split
    · rw [cleanupLoop_frame env iid _ _ B hB]
      exact upsertLoop_frame env uuids iid _ p.tasks _ B hB
    · exact upsertLoop_frame env uuids iid _ p.tasks _ B hB
  · exact upsertLoop_frame env uuids iid _ p.tasks _ B hB

theorem taskPhase_inspections (p : InspPayload) (env : Env) (uuids : Uuids)
    (iid : String) (u0 : Nat) (st1 : Store) (tr : List Op) :
    (taskPhase p env uuids iid u0 st1 tr).1.inspections = st1.inspections := by
  unfold taskPhase
  dsimp only []
  split
  · split
    · rw [cleanupLoop_inspections env iid]
      exact upsertLoop_inspections env uuids iid _ p.tasks _
    · exact upsertLoop_inspections env uuids iid _ p.tasks _
  · exact upsertLoop_inspections env uuids iid _ p.tasks _

theorem taskPhase_trace_all (p : InspPayload) (env : Env) (uuids : Uuids)
    (iid : String) (u0 : Nat) (st1 : Store) (tr : List Op) :
    ∀ op ∈ (taskPhase p env uuids iid u0 st1 tr).2.1,
      op ∈ tr ∨ op = Op.getTasks iid ∨ stepOpOK iid op ∨ ∃ d, op = Op.deleteTask d iid := by
  unfold taskPhase
  dsimp only []
  have base : ∀ op ∈ (upsertLoop env uuids iid (taskGetIds env st1 iid) p.tasks
      ⟨st1, tr ++ [Op.getTasks iid], [], [], 3, u0⟩).trace,
      op ∈ tr ∨ op = Op.getTasks iid ∨ stepOpOK iid op ∨ ∃ d, op = Op.deleteTask d iid := by
    intro op hop
    rcases upsertLoop_trace env uuids iid _ p.tasks _ op hop with h2 | h2
    · simp only [List.mem_append, List.mem_singleton] at h2
      rcases h2 with h2 | rfl
      · exact Or.inl h2
      · exact Or.inr (Or.inl rfl)
    · exact Or.inr (Or.inr (Or.inl h2))
  split
  · split
    · intro op hop
      rcases cleanupLoop_trace env iid _ _ op hop with h2 | h2
      · exact base op h2
      · exact Or.inr (Or.inr (Or.inr h2))
    · exact base
  · exact base

/-!
## Lemmas: operation shape predicates
-/

/-- Every task write carries a strict-boolean `completed` value. -/
def strictBoolWrite : Op → Prop
  | Op.patchTask _ _ _ cv => ∃ b, cv = some (PVal.pbool b)
  | Op.postTask row => ∃ b, row.completed = PVal.pbool b
  | _ => True

/-- Every task operation is scoped to the given mission id. -/
def scopedTo (iid : String) : Op → Prop
  | Op.patchTask _ i _ _ => i = iid
  | Op.deleteTask _ i => i = iid
  | Op.postTask row => row.inspectionId = iid
  | Op.getTask _ i => i = iid
  | Op.getTasks i => i = iid
  | _ => True

theorem stepOpOK_strictBool {iid : String} {op : Op} (h : stepOpOK iid op) :
    strictBoolWrite op := by
  cases op <;> simp [stepOpOK, strictBoolWrite] at h ⊢ <;> tauto

theorem stepOpOK_scoped {iid : String} {op : Op} (h : stepOpOK iid op) :
    scopedTo iid op := by
  cases op <;> simp [stepOpOK, scopedTo] at h ⊢ <;> tauto

/-!
## Lemmas: the sync passes never issue mission updates
-/

theorem cifdd_inspections_cases (d oid u g : String) (st : Store)
    (hnodate : ∀ r ∈ st.inspections, r.departureDate ≠ d) :
    ∀ r ∈ (create_inspection_for_departure_date d oid u g st).1.inspections,
      r ∈ st.inspections ∨ r.departureDate = d := by
  intro r hr
  unfold create_inspection_for_departure_date at hr
  split at hr
  · exact Or.inl hr
  split at hr
  · exact Or.inl hr
  split at hr
  case _ e rest heq =>
    exfalso
    have : e ∈ st.inspections.filter (fun x => x.departureDate == d) := by
      rw [heq]; exact List.mem_cons_self _ _
    rw [List.mem_filter] at this
    exact hnodate e this.1 (by simpa using this.2)
  case _ =>
    simp only [] at hr
    rw [seedTasks_inspections] at hr
    unfold insertInspection at hr
    split at hr
    · exact Or.inl hr
    · rcases List.mem_append.mp hr with hr | hr
      · exact Or.inl hr
      · simp only [List.mem_singleton] at hr
        subst hr
        exact Or.inr rfl

theorem cifdd_no_patch (d oid u g : String) (st : Store)
    (hnodate : ∀ r ∈ st.inspections, r.departureDate ≠ d) :
    ∀ iid fs, Op.patchMission iid fs ∉ (create_inspection_for_departure_date d oid u g st).2 := by
  intro iid fs hop
  obtain ⟨e, he, hed, _, _⟩ := cifdd_patch_ops d oid u g st iid fs hop
  exact hnodate e he hed

theorem createPhaseExit_no_patch :
    ∀ (gs : List (String × List Order)) (st : Store) (eD : List String),
      GroupsWF gs → (gs.map Prod.fst).Nodup →
      (∀ g ∈ gs, g.1 ∉ eD → ∀ r ∈ st.inspections, r.departureDate ≠ g.1) →
      ∀ iid fs, Op.patchMission iid fs ∉ (createPhaseExit eD gs st).2
  | [], st, eD, _, _, _ => by intro iid fs hop; simp [createPhaseExit] at hop
  | (d, os) :: gs, st, eD, hwf, hnd, hfresh => by
      intro iid fs hop
      have hwftail : GroupsWF gs := fun g hg => hwf g (List.mem_cons_of_mem _ hg)
      have hndtail : (gs.map Prod.fst).Nodup := by
        simp only [List.map_cons, List.nodup_cons] at hnd
        exact hnd.2
      have hdnot : d ∉ gs.map Prod.fst := by
        simp only [List.map_cons, List.nodup_cons] at hnd
        exact hnd.1
      rw [createPhaseExit.eq_def] at hop
      dsimp only [] at hop
      by_cases hin : d ∈ eD
      · rw [if_pos hin] at hop
        exact createPhaseExit_no_patch gs st eD hwftail hndtail
          (fun g hg => hfresh g (List.mem_cons_of_mem _ hg)) iid fs hop
      · rw [if_neg hin] at hop
        dsimp only [] at hop
        rcases os with _ | ⟨o, os'⟩
        · simp only [List.nil_append] at hop
          exact createPhaseExit_no_patch gs st eD hwftail hndtail
            (fun g hg => hfresh g (List.mem_cons_of_mem _ hg)) iid fs hop
        · have hnodate : ∀ r ∈ st.inspections, r.departureDate ≠ d :=
            hfresh (d, o :: os') (List.mem_cons_self _ _) hin
          rcases List.mem_append.mp hop with hop | hop
          · exact cifdd_no_patch d o.id (pyStrip o.unitNumber) (exitGuestJoin (o :: os')) st
              hnodate iid fs hop
          · refine createPhaseExit_no_patch gs _ eD hwftail hndtail ?_ iid fs hop
            intro g hg hgin r hr
            rcases cifdd_inspections_cases d o.id (pyStrip o.unitNumber)
                (exitGuestJoin (o :: os')) st hnodate r hr with h | h
            · exact hfresh g (List.mem_cons_of_mem _ hg) hgin r h
            · rw [h]
              intro he
              exact hdnot (he ▸ List.mem_map_of_mem Prod.fst hg)

theorem ccifdd_inspections_cases (d oid u g : String) (st : Store)
    (hnodate : ∀ r ∈ st.inspections, r.departureDate ≠ d) :
    ∀ r ∈ (create_cleaning_inspection_for_departure_date d oid u g st).1.inspections,
      r ∈ st.inspections ∨ r.departureDate = d := by
  intro r hr
  unfold create_cleaning_inspection_for_departure_date at hr
  split at hr
  · exact Or.inl hr
  split at hr
  · exact Or.inl hr
  split at hr
  case _ e rest heq =>
    exfalso
    have : e ∈ st.inspections.filter (fun x => x.departureDate == d) := by
      rw [heq]; exact List.mem_cons_self _ _
    rw [List.mem_filter] at this
    exact hnodate e this.1 (by simpa using this.2)
  case _ =>
    simp only [] at hr
    rw [seedTasks_inspections] at hr
    unfold insertInspection at hr
    split at hr
    · exact Or.inl hr
    · rcases List.mem_append.mp hr with hr | hr
      · exact Or.inl hr
      · simp only [List.mem_singleton] at hr
        subst hr
        exact Or.inr rfl

theorem ccifdd_no_patch (d oid u g : String) (st : Store)
    (hnodate : ∀ r ∈ st.inspections, r.departureDate ≠ d) :
    ∀ iid fs,
      Op.patchMission iid fs ∉ (create_cleaning_inspection_for_departure_date d oid u g st).2 := by
  intro iid fs hop
  obtain ⟨e, he, hed, _, _⟩ := ccifdd_patch_ops d oid u g st iid fs hop
  exact hnodate e he hed

theorem createPhaseCleaning_no_patch (pySet : List String → List String) :
    ∀ (gs : List (String × List Order)) (st : Store) (eD : List String),
      GroupsWF gs → (gs.map Prod.fst).Nodup →
      (∀ g ∈ gs, g.1 ∉ eD → ∀ r ∈ st.inspections, r.departureDate ≠ g.1) →
      ∀ iid fs, Op.patchMission iid fs ∉ (createPhaseCleaning pySet eD gs st).2
  | [], st, eD, _, _, _ => by intro iid fs hop; simp [createPhaseCleaning] at hop
  | (d, os) :: gs, st, eD, hwf, hnd, hfresh => by
      intro iid fs hop
      have hwftail : GroupsWF gs := fun g hg => hwf g (List.mem_cons_of_mem _ hg)
      have hndtail : (gs.map Prod.fst).Nodup := by
        simp only [List.map_cons, List.nodup_cons] at hnd
        exact hnd.2
      have hdnot : d ∉ gs.map Prod.fst := by
        simp only [List.map_cons, List.nodup_cons] at hnd
        exact hnd.1
      rw [createPhaseCleaning.eq_def] at hop
      dsimp only [] at hop
      by_cases hin : d ∈ eD
      · rw [if_pos hin] at hop
        exact createPhaseCleaning_no_patch pySet gs st eD hwftail hndtail
          (fun g hg => hfresh g (List.mem_cons_of_mem _ hg)) iid fs hop
      · rw [if_neg hin] at hop
        dsimp only [] at hop
        rcases os with _ | ⟨o, os'⟩
        · simp only [List.nil_append] at hop
          exact createPhaseCleaning_no_patch pySet gs st eD hwftail hndtail
            (fun g hg => hfresh g (List.mem_cons_of_mem _ hg)) iid fs hop
        · have hnodate : ∀ r ∈ st.inspections, r.departureDate ≠ d :=
            hfresh (d, o :: os') (List.mem_cons_self _ _) hin
          rcases List.mem_append.mp hop with hop | hop
          · exact ccifdd_no_patch d o.id (pyStrip o.unitNumber)
              (cleaningGuestJoin pySet (o :: os')) st hnodate iid fs hop
          · refine createPhaseCleaning_no_patch pySet gs _ eD hwftail hndtail ?_ iid fs hop
            intro g hg hgin r hr
            rcases ccifdd_inspections_cases d o.id (pyStrip o.unitNumber)
                (cleaningGuestJoin pySet (o :: os')) st hnodate r hr with h | h
            · exact hfresh g (List.mem_cons_of_mem _ hg) hgin r h
            · rw [h]
              intro he
              exact hdnot (he ▸ List.mem_map_of_mem Prod.fst hg)

/-!
## Lemmas: the single-task endpoint
-/

theorem utCreatePath_frame (env : Env) (k : Nat) (iid tid tn : String) (q : UTPayload)
    (st : Store) (tr : List Op) (B : String) (hB : B ≠ iid) :
    (utCreatePath env k iid tid tn q st tr).1.tasks.filter (fun r => r.inspectionId == B) =
      st.tasks.filter (fun r => r.inspectionId == B) := by
  unfold utCreatePath
  dsimp only []
  repeat' split
  all_goals first
    | rfl
    | exact appendTaskRow_filter_ne hB

theorem update_inspection_task_frame (iid tid : String) (q : UTPayload) (env : Env)
    (st : Store) (B : String) (hB : B ≠ iid) :
    (update_inspection_task iid tid q env st).1.tasks.filter (fun r => r.inspectionId == B) =
      st.tasks.filter (fun r => r.inspectionId == B) := by
  unfold update_inspection_task
  dsimp only []
  repeat' split
  all_goals first
    | rfl
    | exact applyTaskPatch_filter_ne hB
    | exact utCreatePath_frame env _ iid tid _ q st _ B hB

theorem utCreatePath_scoped (env : Env) (k : Nat) (iid tid tn : String) (q : UTPayload)
    (st : Store) (tr : List Op) :
    ∀ op ∈ (utCreatePath env k iid tid tn q st tr).2.1, op ∈ tr ∨ scopedTo iid op := by
  unfold utCreatePath
  dsimp only []
  repeat' split
  all_goals intro op hop
  all_goals simp only [List.mem_append, List.mem_singleton] at hop
  all_goals rcases hop with hop | rfl
  all_goals first
    | exact Or.inl hop
    | (right; simp [scopedTo])

theorem mem_ut_base {iid tid : String} {op : Op}
    (h : op ∈ ([Op.getTask tid iid] : List Op)) : scopedTo iid op := by
  simp only [List.mem_singleton] at h
  subst h
  simp [scopedTo]

theorem mem_ut_base2 {iid tid : String} {nm : Option String} {cv : Option PVal} {op : Op}
    (h : op ∈ ([Op.getTask tid iid, Op.patchTask tid iid nm cv] : List Op)) :
    scopedTo iid op := by
  simp only [List.mem_cons, List.mem_singleton] at h
  rcases h with rfl | h
  · simp [scopedTo]
  · rcases h with rfl | h
    · simp [scopedTo]
    · simp at h

theorem update_inspection_task_scoped (iid tid : String) (q : UTPayload) (env : Env)
    (st : Store) :
    ∀ op ∈ (update_inspection_task iid tid q env st).2.1, scopedTo iid op := by
  unfold update_inspection_task
  dsimp only []
  repeat' split
  all_goals intro op hop
  all_goals first
    | exact mem_ut_base hop
    | exact mem_ut_base2 hop
    | (rcases hop with rfl | rfl)
    | (rcases utCreatePath_scoped _ _ _ _ _ _ _ _ op hop with h | h
       · first
          | exact mem_ut_base h
          | exact mem_ut_base2 h
       · exact h)

/-!
## Lemmas: task-table preservation of the monthly pass
-/

theorem insertTaskRowM_tasks_mem {st : MStore} {row t : ITask} (h : t ∈ st.tasks) :
    t ∈ (insertTaskRowM st row).tasks := by
  unfold insertTaskRowM
  split
  · exact h
  · exact List.mem_append_left _ h

theorem seedTasksM_tasks_mem (iid : String) :
    ∀ (tmpl : List TemplateTask) (st : MStore) (t : ITask), t ∈ st.tasks →
      t ∈ (seedTasksM iid st tmpl).1.tasks
  | [], _, _, h => h
  | tt :: rest, st, t, h => by
      rw [seedTasksM]
      exact seedTasksM_tasks_mem iid rest _ t (insertTaskRowM_tasks_mem h)

theorem createPhaseMonthly_tasks_mem (eK : List (String × String)) :
    ∀ (ps : List (String × String)) (st : MStore) (t : ITask), t ∈ st.tasks →
      t ∈ (createPhaseMonthly eK ps st).1.tasks
  | [], _, _, h => h
  | (u, m) :: ps, st, t, h => by
      rw [createPhaseMonthly.eq_def]
      dsimp only []
      split
      · exact createPhaseMonthly_tasks_mem eK ps st t h
      · split
        · exact createPhaseMonthly_tasks_mem eK ps st t h
        · exact createPhaseMonthly_tasks_mem eK ps _ t (seedTasksM_tasks_mem _ _ _ t h)

theorem deletePhaseMonthly_tasks (keep : List String) :
    ∀ (rows : List MonthlyInspection) (st : MStore),
      (deletePhaseMonthly keep rows st).1.tasks = st.tasks
  | [], _ => rfl
  | r :: rows, st => by
      rw [deletePhaseMonthly]
      split
      · dsimp only []
        rw [deletePhaseMonthly_tasks keep rows]
      · exact deletePhaseMonthly_tasks keep rows st

/-!
## Lemmas: shapes of a full `create_inspection` call
-/

theorem isTaskOp_false_isTaskDelete_false {op : Op} (h : Op.isTaskOp op = false) :
    Op.isTaskDelete op = false := by
  cases op <;> simp [Op.isTaskOp, Op.isTaskWrite, Op.isTaskDelete] at h ⊢

/-- The response object `create_inspection` builds from its payload, the
returned task list and the three counts. -/
def ciRespOf (p : InspPayload) (uuids : Uuids) (rt : RespTasks) (sv tot fl : Nat) : CIResp :=
  ⟨(ciMissionId p uuids).1, pyOrNone p.orderId, pyGetStr p.unitNumber "",
   pyGetStr p.guestName "", pyGetStr p.departureDate "", p.status.getD DEFAULT_STATUS,
   rt, sv, tot, completedCount rt, fl⟩

/-- Exhaustive shape of a `create_inspection` call: an HTTP 500 after one
or two mission calls leaving the store untouched, or a successful mission
phase (whose store step never touches the task table) followed — iff the
target list is non-empty — by the task phase. -/
theorem ci_cases (p : InspPayload) (env : Env) (uuids : Uuids) (st : Store) :
    (∃ e op1,
      (create_inspection p env uuids st =
          ⟨st, [Op.getMission (ciMissionId p uuids).1], Except.error e⟩ ∨
       create_inspection p env uuids st =
          ⟨st, [Op.getMission (ciMissionId p uuids).1, op1], Except.error e⟩) ∧
      Op.isTaskOp op1 = false) ∨
    (∃ st1 op1,
      ((p.tasks = [] ∧ create_inspection p env uuids st =
          ⟨st1, [Op.getMission (ciMissionId p uuids).1, op1],
           Except.ok (ciRespOf p uuids (RespTasks.fromPayload p.tasks) 0 0 0)⟩) ∨
       (p.tasks ≠ [] ∧ create_inspection p env uuids st =
          ⟨(taskPhase p env uuids (ciMissionId p uuids).1 (ciMissionId p uuids).2 st1
              [Op.getMission (ciMissionId p uuids).1, op1]).1,
           (taskPhase p env uuids (ciMissionId p uuids).1 (ciMissionId p uuids).2 st1
              [Op.getMission (ciMissionId p uuids).1, op1]).2.1,
           Except.ok (ciRespOf p uuids
             (if (taskPhase p env uuids (ciMissionId p uuids).1 (ciMissionId p uuids).2 st1
                    [Op.getMission (ciMissionId p uuids).1, op1]).2.2.1 ≠ [] then
                RespTasks.fromSaved
                  (taskPhase p env uuids (ciMissionId p uuids).1 (ciMissionId p uuids).2 st1
                    [Op.getMission (ciMissionId p uuids).1, op1]).2.2.1
              else RespTasks.fromPayload p.tasks)
             (taskPhase p env uuids (ciMissionId p uuids).1 (ciMissionId p uuids).2 st1
               [Op.getMission (ciMissionId p uuids).1, op1]).2.2.1.length
             p.tasks.length
             (taskPhase p env uuids (ciMissionId p uuids).1 (ciMissionId p uuids).2 st1
               [Op.getMission (ciMissionId p uuids).1, op1]).2.2.2.length)⟩)) ∧
      st1.tasks = st.tasks ∧ Op.isTaskOp op1 = false) := by
  unfold create_inspection
  dsimp only []
  split
  case h_1 heq =>
    exact Or.inl ⟨_, Op.getMission (ciMissionId p uuids).1, Or.inl rfl, rfl⟩
  case h_2 ex heq =>
    by_cases hex : ex ≠ []
    · rw [if_pos hex]
      dsimp only []
      rcases henv : env 1 with n | c | _
      · dsimp only []
        by_cases h404 : n = 404
        · rw [if_pos h404]
          dsimp only []
          by_cases ht : p.tasks = []
          · rw [if_pos ht]
            exact Or.inr ⟨st, _, Or.inl ⟨ht, rfl⟩, rfl, rfl⟩
          · rw [if_neg ht]
            exact Or.inr ⟨st, _, Or.inr ⟨ht, rfl⟩, rfl, rfl⟩
        · rw [if_neg h404]
          by_cases h400 : 400 ≤ n
          · rw [if_pos h400]
            dsimp only []
            exact Or.inl ⟨_, _, Or.inr rfl, rfl⟩
          · rw [if_neg h400]
            by_cases hsp : successPatchCode n = true
            · rw [if_pos hsp]
              dsimp only []
              by_cases ht : p.tasks = []
              · rw [if_pos ht]
                exact Or.inr ⟨patchInspection st (ciMissionId p uuids).1 _, _,
                  Or.inl ⟨ht, rfl⟩, patchInspection_tasks _ _ _, rfl⟩
              · rw [if_neg ht]
                exact Or.inr ⟨patchInspection st (ciMissionId p uuids).1 _, _,
                  Or.inr ⟨ht, rfl⟩, patchInspection_tasks _ _ _, rfl⟩
            · rw [if_neg hsp]
              dsimp only []
              by_cases ht : p.tasks = []
              · rw [if_pos ht]
                exact Or.inr ⟨st, _, Or.inl ⟨ht, rfl⟩, rfl, rfl⟩
              · rw [if_neg ht]
                exact Or.inr ⟨st, _, Or.inr ⟨ht, rfl⟩, rfl, rfl⟩
      · dsimp only []
        by_cases hc : c = some 404
        · rw [if_pos hc]
          dsimp only []
          by_cases ht : p.tasks = []
          · rw [if_pos ht]
            exact Or.inr ⟨st, _, Or.inl ⟨ht, rfl⟩, rfl, rfl⟩
          · rw [if_neg ht]
            exact Or.inr ⟨st, _, Or.inr ⟨ht, rfl⟩, rfl, rfl⟩
        · rw [if_neg hc]
          dsimp only []
          exact Or.inl ⟨_, _, Or.inr rfl, rfl⟩
      · dsimp only []
        exact Or.inl ⟨_, _, Or.inr rfl, rfl⟩
    · rw [if_neg hex]
      dsimp only []
      rcases henv : env 1 with n | c | _
      · dsimp only []
        by_cases hsp : successPostCode n = true
        · rw [if_pos hsp]
          dsimp only []
          by_cases ht : p.tasks = []
          · rw [if_pos ht]
            exact Or.inr ⟨_, _, Or.inl ⟨ht, rfl⟩, rfl, rfl⟩
          · rw [if_neg ht]
            exact Or.inr ⟨_, _, Or.inr ⟨ht, rfl⟩, rfl, rfl⟩
        · rw [if_neg hsp]
          by_cases h49 : n = 404 ∨ n = 409
          · rw [if_pos h49]
            dsimp only []
            by_cases ht : p.tasks = []
            · rw [if_pos ht]
              exact Or.inr ⟨st, _, Or.inl ⟨ht, rfl⟩, rfl, rfl⟩
            · rw [if_neg ht]
              exact Or.inr ⟨st, _, Or.inr ⟨ht, rfl⟩, rfl, rfl⟩
          · rw [if_neg h49]
            by_cases h400 : 400 ≤ n
            · rw [if_pos h400]
              dsimp only []
              exact Or.inl ⟨_, _, Or.inr rfl, rfl⟩
            · rw [if_neg h400]
              dsimp only []
              by_cases ht : p.tasks = []
              · rw [if_pos ht]
                exact Or.inr ⟨st, _, Or.inl ⟨ht, rfl⟩, rfl, rfl⟩
              · rw [if_neg ht]
                exact Or.inr ⟨st, _, Or.inr ⟨ht, rfl⟩, rfl, rfl⟩
      · dsimp only []
        by_cases hc : c = some 404 ∨ c = some 409
        · rw [if_pos hc]
          dsimp only []
          by_cases ht : p.tasks = []
          · rw [if_pos ht]
            exact Or.inr ⟨st, _, Or.inl ⟨ht, rfl⟩, rfl, rfl⟩
          · rw [if_neg ht]
            exact Or.inr ⟨st, _, Or.inr ⟨ht, rfl⟩, rfl, rfl⟩
        · rw [if_neg hc]
          dsimp only []
          exact Or.inl ⟨_, _, Or.inr rfl, rfl⟩
      · dsimp only []
        exact Or.inl ⟨_, _, Or.inr rfl, rfl⟩

theorem isTaskOp_false_strictBool {op : Op} (h : Op.isTaskOp op = false) :
    strictBoolWrite op := by
  cases op <;> trivial

/-- A `create_inspection` call with an empty target list issues no task
operation, leaves the task table untouched, and reports all-zero counts. -/
theorem ci_empty_facts (p : InspPayload) (env : Env) (uuids : Uuids) (st : Store)
    (h : p.tasks = []) :
    (∀ op ∈ (create_inspection p env uuids st).trace, Op.isTaskOp op = false) ∧
    (create_inspection p env uuids st).store.tasks = st.tasks ∧
    ∀ r : CIResp, (create_inspection p env uuids st).resp = Except.ok r →
      r.savedTasksCount = 0 ∧ r.totalTasksCount = 0 ∧ r.failedTasksCount = 0 ∧
      r.tasks = RespTasks.fromPayload [] := by
  rcases ci_cases p env uuids st with
      ⟨e, op1, heq | heq, hopt⟩ | ⟨st1, op1, ⟨ht, heq⟩ | ⟨ht, heq⟩, hst1, hopt⟩
  · rw [heq]
    refine ⟨?_, rfl, ?_⟩
    · intro op hop
      simp only [List.mem_cons] at hop
      rcases hop with rfl | hop
      · rfl
      · exact absurd hop (List.not_mem_nil op)
    · intro r hok
      exact Except.noConfusion hok
  · rw [heq]
    refine ⟨?_, rfl, ?_⟩
    · intro op hop
      simp only [List.mem_cons] at hop
      rcases hop with rfl | rfl | hop
      · rfl
      · exact hopt
      · exact absurd hop (List.not_mem_nil op)
    · intro r hok
      exact Except.noConfusion hok
  · rw [heq]
    refine ⟨?_, hst1, ?_⟩
    · intro op hop
      simp only [List.mem_cons] at hop
      rcases hop with rfl | rfl | hop
      · rfl
      · exact hopt
      · exact absurd hop (List.not_mem_nil op)
    · intro r hok
      injection hok with h2
      subst h2
      refine ⟨rfl, rfl, rfl, ?_⟩
      rw [h]
      rfl
  · exact absurd h ht

/-- A successful `create_inspection` call with a non-empty target list is
the task phase run after a mission step that did not touch the task table;
the response counts are the task-phase counts. -/
theorem ci_main_shape (p : InspPayload) (env : Env) (uuids : Uuids) (st : Store)
    (r : CIResp) (hne : p.tasks ≠ [])
    (hok : (create_inspection p env uuids st).resp = Except.ok r) :
    ∃ st1 op1,
      (create_inspection p env uuids st).store =
        (taskPhase p env uuids (ciMissionId p uuids).1 (ciMissionId p uuids).2 st1
          [Op.getMission (ciMissionId p uuids).1, op1]).1 ∧
      (create_inspection p env uuids st).trace =
        (taskPhase p env uuids (ciMissionId p uuids).1 (ciMissionId p uuids).2 st1
          [Op.getMission (ciMissionId p uuids).1, op1]).2.1 ∧
      st1.tasks = st.tasks ∧ Op.isTaskDelete op1 = false ∧
      r.savedTasksCount =
        (taskPhase p env uuids (ciMissionId p uuids).1 (ciMissionId p uuids).2 st1
          [Op.getMission (ciMissionId p uuids).1, op1]).2.2.1.length ∧
      r.totalTasksCount = p.tasks.length ∧
      r.failedTasksCount =
        (taskPhase p env uuids (ciMissionId p uuids).1 (ciMissionId p uuids).2 st1
          [Op.getMission (ciMissionId p uuids).1, op1]).2.2.2.length := by
  rcases ci_cases p env uuids st with
      ⟨e, op1, heq | heq, hopt⟩ | ⟨st1, op1, ⟨ht, heq⟩ | ⟨ht, heq⟩, hst1, hopt⟩
  · rw [heq] at hok
    exact Except.noConfusion hok
  · rw [heq] at hok
    exact Except.noConfusion hok
  · exact absurd ht hne
  · rw [heq] at hok
    injection hok with h2
    subst h2
    refine ⟨st1, op1, ?_, ?_, hst1, isTaskOp_false_isTaskDelete_false hopt, rfl, rfl, rfl⟩
    · rw [heq]
    · rw [heq]

/-- Every operation in a `create_inspection` trace is a non-task-table
operation, the scoped task list read, a per-task upsert write, or a scoped
task delete. -/
theorem ci_trace_shape (p : InspPayload) (env : Env) (uuids : Uuids) (st : Store) :
    ∀ op ∈ (create_inspection p env uuids st).trace,
      Op.isTaskOp op = false ∨ op = Op.getTasks (ciMissionId p uuids).1 ∨
      stepOpOK (ciMissionId p uuids).1 op ∨
      ∃ d, op = Op.deleteTask d (ciMissionId p uuids).1 := by
  intro op hop
  rcases ci_cases p env uuids st with
      ⟨e, op1, heq | heq, hopt⟩ | ⟨st1, op1, ⟨ht, heq⟩ | ⟨ht, heq⟩, hst1, hopt⟩
  · rw [heq] at hop
    simp only [List.mem_cons] at hop
    rcases hop with rfl | hop
    · exact Or.inl rfl
    · exact absurd hop (List.not_mem_nil op)
  · rw [heq] at hop
    simp only [List.mem_cons] at hop
    rcases hop with rfl | rfl | hop
    · exact Or.inl rfl
    · exact Or.inl hopt
    · exact absurd hop (List.not_mem_nil op)
  · rw [heq] at hop
    simp only [List.mem_cons] at hop
    rcases hop with rfl | rfl | hop
    · exact Or.inl rfl
    · exact Or.inl hopt
    · exact absurd hop (List.not_mem_nil op)
  · rw [heq] at hop
    rcases taskPhase_trace_all p env uuids (ciMissionId p uuids).1 (ciMissionId p uuids).2 st1
        [Op.getMission (ciMissionId p uuids).1, op1] op hop with h | h | h | h
    · simp only [List.mem_cons] at h
      rcases h with rfl | rfl | h
      · exact Or.inl rfl
      · exact Or.inl hopt
      · exact absurd h (List.not_mem_nil op)
    · exact Or.inr (Or.inl h)
    · exact Or.inr (Or.inr (Or.inl h))
    · exact Or.inr (Or.inr (Or.inr h))

/-- A `create_inspection` call never touches task rows of another
mission. -/
theorem ci_frame (p : InspPayload) (env : Env) (uuids : Uuids) (st : Store)
    (B : String) (hB : B ≠ (ciMissionId p uuids).1) :
    (create_inspection p env uuids st).store.tasks.filter (fun r => r.inspectionId == B) =
      st.tasks.filter (fun r => r.inspectionId == B) := by
  rcases ci_cases p env uuids st with
      ⟨e, op1, heq | heq, hopt⟩ | ⟨st1, op1, ⟨ht, heq⟩ | ⟨ht, heq⟩, hst1, hopt⟩
  · rw [heq]
  · rw [heq]
  · rw [heq]
    dsimp only []
    rw [hst1]
  · rw [heq]
    dsimp only []
    rw [taskPhase_frame p env uuids (ciMissionId p uuids).1 (ciMissionId p uuids).2 st1
      [Op.getMission (ciMissionId p uuids).1, op1] B hB, hst1]

/-!
## Lemmas: mission updates and deletions at sync level
-/

theorem sync_exit_no_patch (orders : List Order) (st : Store) :
    ∀ iid fs, Op.patchMission iid fs ∉ (sync_inspections_with_orders orders st).2 := by
  intro iid fs hop
  unfold sync_inspections_with_orders at hop
  dsimp only [] at hop
  have hfresh : ∀ g ∈ ordersByDate orders, g.1 ∉ existingDatesOf st.inspections →
      ∀ r ∈ st.inspections, r.departureDate ≠ g.1 := by
    intro g hg hgin r hr hrd
    obtain ⟨hkne, _, _⟩ := ordersByDate_wf orders g hg
    exact hgin (existingDatesOf_mem.mpr ⟨⟨r, hr, hrd⟩, hkne⟩)
  rcases List.mem_append.mp hop with hop | hop
  · exact createPhaseExit_no_patch (ordersByDate orders) st _ (ordersByDate_wf orders)
      (ordersByDate_keys_nodup orders) hfresh iid fs hop
  · rw [deletePhase_trace] at hop
    obtain ⟨rr, _, hrr⟩ := List.mem_map.mp hop
    exact Op.noConfusion hrr

theorem sync_cleaning_no_patch (pySet : List String → List String) (orders : List Order)
    (st : Store) :
    ∀ iid fs, Op.patchMission iid fs ∉ (sync_cleaning_inspections_with_orders pySet orders st).2 := by
  intro iid fs hop
  unfold sync_cleaning_inspections_with_orders at hop
  dsimp only [] at hop
  have hfresh : ∀ g ∈ ordersByDate orders, g.1 ∉ existingDatesOf st.inspections →
      ∀ r ∈ st.inspections, r.departureDate ≠ g.1 := by
    intro g hg hgin r hr hrd
    obtain ⟨hkne, _, _⟩ := ordersByDate_wf orders g hg
    exact hgin (existingDatesOf_mem.mpr ⟨⟨r, hr, hrd⟩, hkne⟩)
  rcases List.mem_append.mp hop with hop | hop
  · exact createPhaseCleaning_no_patch pySet (ordersByDate orders) st _ (ordersByDate_wf orders)
      (ordersByDate_keys_nodup orders) hfresh iid fs hop
  · rw [deletePhase_trace] at hop
    obtain ⟨rr, _, hrr⟩ := List.mem_map.mp hop
    exact Op.noConfusion hrr

theorem cifdd_fields (d oid u g : String) (st : Store) :
    ∀ iid fs, Op.patchMission iid fs ∈ (create_inspection_for_departure_date d oid u g st).2 →
      ∀ f ∈ fs, f.1 = "unit_number" ∨ f.1 = "guest_name" := by
  intro iid fs hop f hf
  obtain ⟨e, _, _, _, hfs⟩ := cifdd_patch_ops d oid u g st iid fs hop
  subst hfs
  rcases updateFieldsFor_mem f hf with ⟨h1, _⟩ | ⟨h1, _⟩
  · left
    rw [h1]
  · right
    exact h1

theorem sync_exit_deleteMission_iff (orders : List Order) (st : Store) (i : String) :
    Op.deleteMission i ∈ (sync_inspections_with_orders orders st).2 ↔
      ∃ r ∈ st.inspections, r.id = i ∧ r.departureDate ≠ "" ∧
        r.departureDate ∉ (ordersByDate orders).map Prod.fst := by
  constructor
  · intro hop
    unfold sync_inspections_with_orders at hop
    dsimp only [] at hop
    rcases List.mem_append.mp hop with hop | hop
    · exfalso
      rcases createPhaseExit_ops _ _ _ _ hop with ⟨row, h⟩ | ⟨row, h⟩ | ⟨iid, fs, h⟩ <;>
        exact Op.noConfusion h
    · rw [deletePhase_trace] at hop
      obtain ⟨rr, hrr, heq2⟩ := List.mem_map.mp hop
      rw [List.mem_filter] at hrr
      have hid : rr.id = i := by injection heq2
      obtain ⟨h1, h2⟩ := hrr
      simp only [Bool.and_eq_true, decide_eq_true_iff] at h2
      exact ⟨rr, h1, hid, h2.1, h2.2⟩
  · rintro ⟨r, hr, hid, hdne, hnot⟩
    unfold sync_inspections_with_orders
    dsimp only []
    refine List.mem_append_right _ ?_
    rw [deletePhase_trace]
    refine List.mem_map.mpr ⟨r, ?_, by rw [hid]⟩
    rw [List.mem_filter]
    refine ⟨hr, ?_⟩
    simp only [Bool.and_eq_true, decide_eq_true_iff]
    exact ⟨hdne, hnot⟩

/-!
## Concrete fixtures
-/

def stEmpty : Store := ⟨[], []⟩

def mstEmpty : MStore := ⟨[], []⟩

def envOK : Env := fun _ => CallRes.status 200

def envExn : Env := fun _ => CallRes.exn

def uuidsFix : Uuids := fun _ => "u"

def pC1 : InspPayload := ⟨some "A", none, some "V1", some "Alice", some "2025-06-01", none,
  [⟨some "1", some "check", some (PVal.pbool true)⟩]⟩

/-- The response of the fault-free one-task `create_inspection` call on
the empty store. -/
def rC1 : CIResp :=
  ⟨"A", none, "V1", "Alice", "2025-06-01", DEFAULT_STATUS,
   RespTasks.fromSaved [⟨"1", "A", "check", PVal.pbool true⟩], 1, 1, 1, 0⟩

def pC9 : InspPayload := ⟨some "A", none, some "V1", some "Alice", some "2025-06-01", none, []⟩

def tFix : ITask := ⟨"1", "INSP-2025-06-01", "check", PVal.pbool true⟩

def stT : Store := ⟨[], [tFix]⟩

def mstT : MStore := ⟨[], [tFix]⟩

def qC8 : UTPayload := ⟨some (PVal.pstr "yes"), none⟩

def qC10 : UTPayload := ⟨some (PVal.pbool true), none⟩

def stC8 : Store := ⟨[], [⟨"1", "A", "n", PVal.pbool false⟩]⟩

def oC4a : Order := ⟨"o1", "2025-06-01", "V1", "Alice", "חדש"⟩

def oC4b : Order := ⟨"o2", "2025-06-01", "V1", "Alice", "חדש"⟩

def oC7 : Order := ⟨"o1", "2025-06-01", "V2", "Bob", "חדש"⟩

def stC7 : Store := ⟨[⟨"INSP-2025-06-01", "o0", "V1", "Alice", "2025-06-01", DEFAULT_STATUS⟩], []⟩

def stC6 : Store := ⟨[⟨"CLEAN-2025-06-01", "o1", "V1", "Alice", "2025-06-01", DEFAULT_STATUS⟩], []⟩

/-- A concrete Python-set enumeration: dedup keeping first occurrences. -/
def pySetD : List String → List String := fun l => l.dedup

theorem pySetD_ok : PySetOK pySetD := by
  intro l
  constructor
  · intro x hx
    exact List.mem_dedup.mp hx
  · intro hne hd
    rcases l with _ | ⟨a, t⟩
    · exact hne rfl
    · have ha : a ∈ pySetD (a :: t) := List.mem_dedup.mpr (List.mem_cons_self a t)
      rw [hd] at ha
      exact absurd ha (List.not_mem_nil a)

theorem exitWF_empty : ExitWF stEmpty :=
  ⟨List.nodup_nil, fun r hr => absurd hr (List.not_mem_nil r)⟩

theorem cleanWF_empty : CleanWF stEmpty :=
  ⟨List.nodup_nil, fun r hr => absurd hr (List.not_mem_nil r)⟩

theorem monthlyWF_empty : MonthlyWF "2025-06-01" "2025-07-01" mstEmpty :=
  ⟨List.nodup_nil, fun r hr => absurd hr (List.not_mem_nil r)⟩

/-- Modelled from the spec: the guest name of a merged mission is the
comma-joined DE-DUPLICATED set of the group members' stripped guest names
in order of first appearance. -/
def specGuestJoin (os : List Order) : String :=
  pyJoin ", " (((os.map (fun o => pyStrip o.guestName)).filter (fun g => g ≠ "")).eraseDups)

/-!
## The claims
-/

/-- C1: in a `POST /api/inspections` call, stored tasks absent from the
target list are deleted only when every target task was confirmed saved:
a response reporting any failed task implies the call issued no task
delete and every stored `(id, inspection_id)` task pair survives; and a
call that did issue a task delete reported zero failures and a full save
count. -/
theorem C1_orphan_cleanup_gate (p : InspPayload) (env : Env) (uuids : Uuids) (st : Store)
    (r : CIResp) (hok : (create_inspection p env uuids st).resp = Except.ok r) :
    (r.failedTasksCount ≠ 0 →
      (∀ op ∈ (create_inspection p env uuids st).trace, Op.isTaskDelete op = false) ∧
      (∀ a b : String, (∃ row ∈ st.tasks, row.id = a ∧ row.inspectionId = b) →
        ∃ row ∈ (create_inspection p env uuids st).store.tasks,
          row.id = a ∧ row.inspectionId = b)) ∧
    ((∃ op ∈ (create_inspection p env uuids st).trace, Op.isTaskDelete op = true) →
      r.failedTasksCount = 0 ∧ r.savedTasksCount = r.totalTasksCount) := by
  by_cases hne : p.tasks = []
  · obtain ⟨htr, hst, hresp⟩ := ci_empty_facts p env uuids st hne
    obtain ⟨h1, h2, h3, _⟩ := hresp r hok
    constructor
    · intro hf
      exact absurd h3 hf
    · intro _
      rw [h1, h2, h3]
      exact ⟨rfl, rfl⟩
  · obtain ⟨st1, op1, hstore, htrace, hst1, hop1, hsv, htot, hfl⟩ :=
      ci_main_shape p env uuids st r hne hok
    constructor
    · intro hf
      have hne2 : (taskPhase p env uuids (ciMissionId p uuids).1 (ciMissionId p uuids).2 st1
          [Op.getMission (ciMissionId p uuids).1, op1]).2.2.2 ≠ [] := by
        intro h0
        rw [hfl, h0] at hf
        exact hf rfl
      have hfd := taskPhase_failed_delete p env uuids (ciMissionId p uuids).1
        (ciMissionId p uuids).2 st1 [Op.getMission (ciMissionId p uuids).1, op1] hne2
      constructor
      · intro op hop
        rw [htrace] at hop
        cases hdel : Op.isTaskDelete op
        · rfl
        · have hmem := hfd.1 op hop hdel
          simp only [List.mem_cons] at hmem
          rcases hmem with rfl | rfl | hmem
          · simp [Op.isTaskDelete] at hdel
          · rw [hop1] at hdel
            simp at hdel
          · exact absurd hmem (List.not_mem_nil op)
      · intro a b hab
        rw [hstore]
        refine hfd.2 a b ?_
        rw [hst1]
        exact hab
    · rintro ⟨op, hop, hdel⟩
      rw [htrace] at hop
      have hnotin : op ∉ [Op.getMission (ciMissionId p uuids).1, op1] := by
        intro hmem
        simp only [List.mem_cons] at hmem
        rcases hmem with rfl | rfl | hmem
        · simp [Op.isTaskDelete] at hdel
        · rw [hop1] at hdel
          simp at hdel
        · exact absurd hmem (List.not_mem_nil op)
      have hg := taskPhase_delete_gate p env uuids (ciMissionId p uuids).1
        (ciMissionId p uuids).2 st1 [Op.getMission (ciMissionId p uuids).1, op1]
        ⟨op, hop, hdel, hnotin⟩
      refine ⟨?_, ?_⟩
      · rw [hfl, hg.1]
        rfl
      · rw [hsv, htot, hg.2]

theorem C1_orphan_cleanup_gate_witness :
    (create_inspection pC1 envOK uuidsFix stEmpty).resp = Except.ok rC1 ∧
    ((rC1.failedTasksCount ≠ 0 →
        (∀ op ∈ (create_inspection pC1 envOK uuidsFix stEmpty).trace,
          Op.isTaskDelete op = false) ∧
        (∀ a b : String, (∃ row ∈ stEmpty.tasks, row.id = a ∧ row.inspectionId = b) →
          ∃ row ∈ (create_inspection pC1 envOK uuidsFix stEmpty).store.tasks,
            row.id = a ∧ row.inspectionId = b)) ∧
     ((∃ op ∈ (create_inspection pC1 envOK uuidsFix stEmpty).trace,
          Op.isTaskDelete op = true) →
        rC1.failedTasksCount = 0 ∧ rC1.savedTasksCount = rC1.totalTasksCount)) :=
  ⟨rfl, C1_orphan_cleanup_gate pC1 envOK uuidsFix stEmpty rC1 rfl⟩

/-- C2: a stored task row marked `completed = true` survives verbatim any
re-run of the exit, cleaning or monthly reconciliation pass (tasks are
seeded only on mission creation and the delete loops never touch the task
table), and a template seeding POST for a key that already exists is a
conflict no-op, never an overwrite. -/
theorem C2_completion_preserved (orders : List Order) (pySet : List String → List String)
    (m1 m2 : String) (st stc : Store) (mst : MStore) (t : ITask)
    (hc : t.completed = PVal.pbool true) :
    (t ∈ st.tasks → ∃ t2 ∈ (sync_inspections_with_orders orders st).1.tasks,
      t2.id = t.id ∧ t2.inspectionId = t.inspectionId ∧ t2.completed = PVal.pbool true) ∧
    (t ∈ stc.tasks → ∃ t2 ∈ (sync_cleaning_inspections_with_orders pySet orders stc).1.tasks,
      t2.id = t.id ∧ t2.inspectionId = t.inspectionId ∧ t2.completed = PVal.pbool true) ∧
    (t ∈ mst.tasks → ∃ t2 ∈ (sync_monthly_inspections m1 m2 mst).1.tasks,
      t2.id = t.id ∧ t2.inspectionId = t.inspectionId ∧ t2.completed = PVal.pbool true) ∧
    (∀ row : ITask, t ∈ st.tasks → row.id = t.id → row.inspectionId = t.inspectionId →
      insertTaskRow st row = st) := by
  refine ⟨?_, ?_, ?_, ?_⟩
  · intro ht
    refine ⟨t, ?_, rfl, rfl, hc⟩
    unfold sync_inspections_with_orders
    dsimp only []
    rw [deletePhase_tasks]
    obtain ⟨l, hl⟩ :=
      createPhaseExit_tasks (existingDatesOf st.inspections) (ordersByDate orders) st
    rw [hl]
    exact List.mem_append_left _ ht
  · intro ht
    refine ⟨t, ?_, rfl, rfl, hc⟩
    unfold sync_cleaning_inspections_with_orders
    dsimp only []
    rw [deletePhase_tasks]
    obtain ⟨l, hl⟩ :=
      createPhaseCleaning_tasks pySet (existingDatesOf stc.inspections) (ordersByDate orders) stc
    rw [hl]
    exact List.mem_append_left _ ht
  · intro ht
    refine ⟨t, ?_, rfl, rfl, hc⟩
    unfold sync_monthly_inspections
    dsimp only []
    rw [deletePhaseMonthly_tasks]
    exact createPhaseMonthly_tasks_mem (monthlyKeysOf mst.inspections) (monthlyPairs m1 m2)
      mst t ht
  · intro row ht h1 h2
    unfold insertTaskRow
    rw [if_pos (List.any_eq_true.mpr ⟨t, ht, by simp [h1, h2]⟩)]

theorem C2_completion_preserved_witness :
    tFix.completed = PVal.pbool true ∧
    ((tFix ∈ stT.tasks → ∃ t2 ∈ (sync_inspections_with_orders [] stT).1.tasks,
        t2.id = tFix.id ∧ t2.inspectionId = tFix.inspectionId ∧
        t2.completed = PVal.pbool true) ∧
     (tFix ∈ stT.tasks →
        ∃ t2 ∈ (sync_cleaning_inspections_with_orders pySetD [] stT).1.tasks,
          t2.id = tFix.id ∧ t2.inspectionId = tFix.inspectionId ∧
          t2.completed = PVal.pbool true) ∧
     (tFix ∈ mstT.tasks →
        ∃ t2 ∈ (sync_monthly_inspections "2025-06-01" "2025-07-01" mstT).1.tasks,
          t2.id = tFix.id ∧ t2.inspectionId = tFix.inspectionId ∧
          t2.completed = PVal.pbool true) ∧
     (∀ row : ITask, tFix ∈ stT.tasks → row.id = tFix.id →
        row.inspectionId = tFix.inspectionId → insertTaskRow stT row = stT)) :=
  ⟨rfl, C2_completion_preserved [] pySetD "2025-06-01" "2025-07-01" stT stT mstT tFix rfl⟩

/-- C3: every task operation of the checklist upsert endpoint is scoped to
the mission id of the call, every operation of the single-task endpoint is
scoped to the mission id in its URL, and both endpoints leave the task
rows of every other mission unchanged. -/
theorem C3_task_writes_scoped (p : InspPayload) (env : Env) (uuids : Uuids) (st : Store)
    (q : UTPayload) (env2 : Env) (iid2 tid2 : String) (st2 : Store) (B : String)
    (hB1 : B ≠ (ciMissionId p uuids).1) (hB2 : B ≠ iid2) :
    (∀ op ∈ (create_inspection p env uuids st).trace, Op.isTaskOp op = true →
      scopedTo (ciMissionId p uuids).1 op) ∧
    ((create_inspection p env uuids st).store.tasks.filter (fun r => r.inspectionId == B) =
      st.tasks.filter (fun r => r.inspectionId == B)) ∧
    (∀ op ∈ (update_inspection_task iid2 tid2 q env2 st2).2.1, scopedTo iid2 op) ∧
    ((update_inspection_task iid2 tid2 q env2 st2).1.tasks.filter
        (fun r => r.inspectionId == B) =
      st2.tasks.filter (fun r => r.inspectionId == B)) := by
  refine ⟨?_, ci_frame p env uuids st B hB1,
    update_inspection_task_scoped iid2 tid2 q env2 st2,
    update_inspection_task_frame iid2 tid2 q env2 st2 B hB2⟩
  intro op hop htask
  rcases ci_trace_shape p env uuids st op hop with h | rfl | h | ⟨d, rfl⟩
  · rw [h] at htask
    exact Bool.noConfusion htask
  · simp [scopedTo]
  · exact stepOpOK_scoped h
  · simp [scopedTo]

theorem C3_task_writes_scoped_witness :
    ("B" ≠ (ciMissionId pC1 uuidsFix).1 ∧ ("B" : String) ≠ "A2") ∧
    ((∀ op ∈ (create_inspection pC1 envOK uuidsFix stEmpty).trace, Op.isTaskOp op = true →
        scopedTo (ciMissionId pC1 uuidsFix).1 op) ∧
     ((create_inspection pC1 envOK uuidsFix stEmpty).store.tasks.filter
          (fun r => r.inspectionId == "B") =
        stEmpty.tasks.filter (fun r => r.inspectionId == "B")) ∧
     (∀ op ∈ (update_inspection_task "A2" "1" qC10 envOK stEmpty).2.1, scopedTo "A2" op) ∧
     ((update_inspection_task "A2" "1" qC10 envOK stEmpty).1.tasks.filter
          (fun r => r.inspectionId == "B") =
        stEmpty.tasks.filter (fun r => r.inspectionId == "B"))) :=
  ⟨⟨by decide, by decide⟩,
   C3_task_writes_scoped pC1 envOK uuidsFix stEmpty qC10 envOK "A2" "1" stEmpty "B"
     (by decide) (by decide)⟩

/-- C4 (amended): starting from a store with no missions, the exit
reconciliation pass produces exactly one mission per departure-date group,
in group order: descriptive fields come from the first booking encountered
and the guest name is the comma-join of the group members' stripped guest
names in encounter order WITHOUT de-duplication; the mission dates are
pairwise distinct. -/
theorem C4_exit_merge_per_date (orders : List Order) (ts : List ITask) :
    (sync_inspections_with_orders orders ⟨[], ts⟩).1.inspections =
      (ordersByDate orders).map exitDesired ∧
    (((ordersByDate orders).map exitDesired).map (fun r => r.departureDate)).Nodup := by
  constructor
  · have hfresh : ∀ g ∈ ordersByDate orders, g.1 ∉ ([] : List String) →
        ∀ r ∈ (⟨[], ts⟩ : Store).inspections,
          r.departureDate ≠ g.1 ∧ r.id ≠ "INSP-" ++ g.1 :=
      fun g hg hgin r hr => absurd hr (List.not_mem_nil r)
    have h := createPhaseExit_state (ordersByDate orders) ⟨[], ts⟩ []
      (ordersByDate_wf orders) (ordersByDate_keys_nodup orders) hfresh
    show (createPhaseExit [] (ordersByDate orders) ⟨[], ts⟩).1.inspections = _
    rw [h]
    rw [List.filter_eq_self.mpr (fun a _ => by simp)]
    exact List.nil_append _
  · rw [List.map_map]
    rw [show ((fun r : Inspection => r.departureDate) ∘ exitDesired) =
        (fun g : String × List Order => g.1) from funext (fun g => (exitDesired_date g).1)]
    exact ordersByDate_keys_nodup orders

/-- C4 counterexample: two active bookings on one date with the SAME guest
name reconcile to one mission whose guest name is "Alice, Alice" — the
encounter-order join keeps duplicates, differing from the spec's
de-duplicated join "Alice". -/
theorem C4_cex_guest_join_duplicates :
    exitGuestJoin [oC4a, oC4b] = "Alice, Alice" ∧
    specGuestJoin [oC4a, oC4b] = "Alice" ∧
    ((sync_inspections_with_orders [oC4a, oC4b] ⟨[], []⟩).1.inspections.map
      (fun r => r.guestName)) = ["Alice, Alice"] ∧
    exitGuestJoin [oC4a, oC4b] ≠ specGuestJoin [oC4a, oC4b] :=
  ⟨rfl, rfl, rfl, by decide⟩

/-- C5: with no booking changes between the runs, the second run of each
reconciliation pass (exit, cleaning, monthly) issues no store operation at
all, given the store sanity invariants (unique mission ids, derived ids
consistent with their key). -/
theorem C5_reconcile_idempotent (orders : List Order) (pySet : List String → List String)
    (m1 m2 : String) (st stc : Store) (mst : MStore)
    (hps : PySetOK pySet) (hwf1 : ExitWF st) (hwf2 : CleanWF stc)
    (hwf3 : MonthlyWF m1 m2 mst) (hne : m1 ≠ m2) (hlen : m1.length = m2.length)
    (hm1 : m1 ≠ "") (hm2 : m2 ≠ "") :
    (sync_inspections_with_orders orders (sync_inspections_with_orders orders st).1).2 = [] ∧
    (sync_cleaning_inspections_with_orders pySet orders
      (sync_cleaning_inspections_with_orders pySet orders stc).1).2 = [] ∧
    (sync_monthly_inspections m1 m2 (sync_monthly_inspections m1 m2 mst).1).2 = [] :=
  ⟨sync_exit_idem orders st hwf1, sync_cleaning_idem pySet hps orders stc hwf2,
   sync_monthly_idem m1 m2 mst hwf3 hne hlen hm1 hm2⟩

theorem C5_reconcile_idempotent_witness :
    (PySetOK pySetD ∧ ExitWF stEmpty ∧ CleanWF stEmpty ∧
      MonthlyWF "2025-06-01" "2025-07-01" mstEmpty ∧
      ("2025-06-01" : String) ≠ "2025-07-01") ∧
    ((sync_inspections_with_orders [] (sync_inspections_with_orders [] stEmpty).1).2 = [] ∧
     (sync_cleaning_inspections_with_orders pySetD []
       (sync_cleaning_inspections_with_orders pySetD [] stEmpty).1).2 = [] ∧
     (sync_monthly_inspections "2025-06-01" "2025-07-01"
       (sync_monthly_inspections "2025-06-01" "2025-07-01" mstEmpty).1).2 = []) :=
  ⟨⟨pySetD_ok, exitWF_empty, cleanWF_empty, monthlyWF_empty, by decide⟩,
   C5_reconcile_idempotent [] pySetD "2025-06-01" "2025-07-01" stEmpty stEmpty mstEmpty
     pySetD_ok exitWF_empty cleanWF_empty monthlyWF_empty (by decide) (by decide)
     (by decide) (by decide)⟩

/-- C6 (amended): the exit reconciliation pass issues a mission DELETE
exactly for the snapshot rows whose non-empty departure date has no order
group; but orphan removal is NOT the only mission-destroying code path —
the cleaning date-change helper deletes the old `CLEAN-{date}` mission
unconditionally whenever the date changed, without consulting the desired
set. -/
theorem C6_mission_deletion_paths (orders : List Order) (st : Store) (i : String)
    (oldD newD oid u g : String) (st2 : Store)
    (hold : oldD ≠ "") (hnew : newD ≠ "") (hdiff : oldD ≠ newD) :
    (Op.deleteMission i ∈ (sync_inspections_with_orders orders st).2 ↔
      ∃ r ∈ st.inspections, r.id = i ∧ r.departureDate ≠ "" ∧
        r.departureDate ∉ (ordersByDate orders).map Prod.fst) ∧
    Op.deleteMission ("CLEAN-" ++ oldD) ∈
      (update_cleaning_inspection_for_departure_date oldD newD oid u g st2).2 := by
  refine ⟨sync_exit_deleteMission_iff orders st i, ?_⟩
  unfold update_cleaning_inspection_for_departure_date
  rw [if_neg hnew]
  dsimp only []
  rw [if_pos ⟨hold, hdiff⟩]
  dsimp only []
  exact List.mem_append_left _ (List.mem_cons_self _ _)

theorem C6_mission_deletion_paths_witness :
    (("2025-06-01" : String) ≠ "" ∧ ("2025-06-02" : String) ≠ "" ∧
      ("2025-06-01" : String) ≠ "2025-06-02") ∧
    ((Op.deleteMission "x" ∈ (sync_inspections_with_orders [] stEmpty).2 ↔
        ∃ r ∈ stEmpty.inspections, r.id = "x" ∧ r.departureDate ≠ "" ∧
          r.departureDate ∉ (ordersByDate []).map Prod.fst) ∧
     Op.deleteMission ("CLEAN-" ++ "2025-06-01") ∈
       (update_cleaning_inspection_for_departure_date "2025-06-01" "2025-06-02" "o" "V1" "G"
         stEmpty).2) :=
  ⟨⟨by decide, by decide, by decide⟩,
   C6_mission_deletion_paths [] stEmpty "x" "2025-06-01" "2025-06-02" "o" "V1" "G" stEmpty
     (by decide) (by decide) (by decide)⟩

/-- C6 counterexample: a cleaning mission whose own date may still be
desired is destroyed by the date-change helper — a second destruction path
beside orphan removal. -/
theorem C6_cex_date_change_deletes_mission :
    stC6.inspections.map (fun r => r.id) = ["CLEAN-2025-06-01"] ∧
    Op.deleteMission "CLEAN-2025-06-01" ∈
      (update_cleaning_inspection_for_departure_date "2025-06-01" "2025-06-02" "o1" "V1"
        "Alice" stC6).2 ∧
    ((update_cleaning_inspection_for_departure_date "2025-06-01" "2025-06-02" "o1" "V1"
        "Alice" stC6).1.inspections.map (fun r => r.id)) = ["CLEAN-2025-06-02"] :=
  ⟨rfl, List.mem_cons_self _ _, rfl⟩

/-- C7 (amended): the reconciliation passes never issue ANY mission update
— a date already present in the snapshot is skipped outright, stored
descriptive fields are never compared; the changed-fields partial update
(restricted to `unit_number` / `guest_name`, never `status` or `tasks`)
lives only in the per-date helper reached from the order endpoints. -/
theorem C7_sync_never_updates_missions (orders : List Order)
    (pySet : List String → List String) (st stc : Store) (d oid u g : String) (st2 : Store) :
    (∀ iid fs, Op.patchMission iid fs ∉ (sync_inspections_with_orders orders st).2) ∧
    (∀ iid fs, Op.patchMission iid fs ∉ (sync_cleaning_inspections_with_orders pySet orders stc).2) ∧
    (∀ iid fs, Op.patchMission iid fs ∈ (create_inspection_for_departure_date d oid u g st2).2 →
      ∀ f ∈ fs, f.1 = "unit_number" ∨ f.1 = "guest_name") :=
  ⟨sync_exit_no_patch orders st, sync_cleaning_no_patch pySet orders stc,
   cifdd_fields d oid u g st2⟩

/-- C7 counterexample: the stored mission has unit "V1" and guest "Alice",
the active booking of its date has unit "V2" and guest "Bob", yet the sync
pass issues no operation and leaves the store unchanged. -/
theorem C7_cex_changed_fields_not_updated :
    stC7.inspections.map (fun r => (r.unitNumber, r.guestName)) = [("V1", "Alice")] ∧
    pyStrip oC7.unitNumber = "V2" ∧ pyStrip oC7.guestName = "Bob" ∧
    eligibleOrder oC7 = true ∧
    (ordersByDate [oC7]).map Prod.fst = ["2025-06-01"] ∧
    stC7.inspections.map (fun r => r.departureDate) = ["2025-06-01"] ∧
    (sync_inspections_with_orders [oC7] stC7).2 = [] ∧
    (sync_inspections_with_orders [oC7] stC7).1 = stC7 :=
  ⟨rfl, rfl, rfl, rfl, rfl, rfl, rfl, rfl⟩

/-- C8 (amended): every operation the checklist upsert endpoint issues
carries a strict-boolean `completed` value — the engine normalizes the
legacy string/null encodings at its input boundary.  (The single-task
endpoint does NOT normalize; see the counterexample.) -/
theorem C8_upsert_strict_boolean (p : InspPayload) (env : Env) (uuids : Uuids) (st : Store) :
    ∀ op ∈ (create_inspection p env uuids st).trace, strictBoolWrite op := by
  intro op hop
  rcases ci_trace_shape p env uuids st op hop with h | rfl | h | ⟨d, rfl⟩
  · exact isTaskOp_false_strictBool h
  · trivial
  · exact stepOpOK_strictBool h
  · trivial

theorem C8_upsert_strict_boolean_witness :
    Op.postTask ⟨"1", "A", "check", PVal.pbool true⟩ ∈
      (create_inspection pC1 envOK uuidsFix stEmpty).trace ∧
    strictBoolWrite (Op.postTask ⟨"1", "A", "check", PVal.pbool true⟩) :=
  ⟨by decide, C8_upsert_strict_boolean pC1 envOK uuidsFix stEmpty _ (by decide)⟩

/-- C8 counterexample: the single-task endpoint forwards the raw string
`"yes"` (which the upsert engine would normalize to `true`) into the PATCH
body and into the stored row, propagating the ambiguous representation. -/
theorem C8_cex_single_task_raw_string :
    normalizeCompleted (some (PVal.pstr "yes")) = true ∧
    Op.patchTask "1" "A" none (some (PVal.pstr "yes")) ∈
      (update_inspection_task "A" "1" qC8 envOK stC8).2.1 ∧
    ((update_inspection_task "A" "1" qC8 envOK stC8).1.tasks.map (fun r => r.completed)) =
      [PVal.pstr "yes"] :=
  ⟨rfl, by decide, rfl⟩

/-- C9: a `POST /api/inspections` call whose payload has no tasks issues
no task-table operation at all, leaves the stored tasks unchanged, and a
successful response reports zero saved, total and failed counts with an
empty task list. -/
theorem C9_empty_tasks_noop (p : InspPayload) (env : Env) (uuids : Uuids) (st : Store)
    (h : p.tasks = []) :
    (∀ op ∈ (create_inspection p env uuids st).trace, Op.isTaskOp op = false) ∧
    (create_inspection p env uuids st).store.tasks = st.tasks ∧
    ∀ r : CIResp, (create_inspection p env uuids st).resp = Except.ok r →
      r.savedTasksCount = 0 ∧ r.totalTasksCount = 0 ∧ r.failedTasksCount = 0 ∧
      r.tasks = RespTasks.fromPayload [] :=
  ci_empty_facts p env uuids st h

theorem C9_empty_tasks_noop_witness :
    pC9.tasks = [] ∧
    ((∀ op ∈ (create_inspection pC9 envOK uuidsFix stEmpty).trace, Op.isTaskOp op = false) ∧
     (create_inspection pC9 envOK uuidsFix stEmpty).store.tasks = stEmpty.tasks ∧
     ∀ r : CIResp, (create_inspection pC9 envOK uuidsFix stEmpty).resp = Except.ok r →
       r.savedTasksCount = 0 ∧ r.totalTasksCount = 0 ∧ r.failedTasksCount = 0 ∧
       r.tasks = RespTasks.fromPayload []) :=
  ⟨rfl, C9_empty_tasks_noop pC9 envOK uuidsFix stEmpty rfl⟩

/-- C10: when every store call of the single-task PATCH endpoint raises an
exception (lookup, update and insert all fail), the endpoint still leaves
the store unchanged and returns the success-shaped `create_data` object
echoing the requested task id, name and completed value — no error reaches
the caller. -/
theorem C10_store_failure_still_success (iid tid : String) (q : UTPayload) (env : Env)
    (st : Store) (henv : ∀ n, env n = CallRes.exn)
    (hq : ¬(q.completed = none ∧ q.name = none)) :
    (update_inspection_task iid tid q env st).1 = st ∧
    (update_inspection_task iid tid q env st).2.2 =
      UTResp.createData ⟨tid, iid, q.name.getD "", q.completed.getD (PVal.pbool false)⟩ := by
  unfold update_inspection_task utCreatePath
  rw [if_neg hq]
  dsimp only []
  rw [henv 0]
  dsimp only []
  rw [henv 1]
  dsimp only []
  rcases hn : q.name with _ | s
  · exact ⟨rfl, rfl⟩
  · dsimp only []
    by_cases hs : s ≠ ""
    · rw [if_pos hs]
      exact ⟨rfl, rfl⟩
    · rw [if_neg hs]
      have hs2 : s = "" := by
        by_contra hs3
        exact hs hs3
      subst hs2
      exact ⟨rfl, rfl⟩

theorem C10_store_failure_still_success_witness :
    (envExn 0 = CallRes.exn ∧ ¬(qC10.completed = none ∧ qC10.name = none)) ∧
    ((update_inspection_task "A" "1" qC10 envExn stC8).1 = stC8 ∧
     (update_inspection_task "A" "1" qC10 envExn stC8).2.2 =
       UTResp.createData ⟨"1", "A", qC10.name.getD "",
         qC10.completed.getD (PVal.pbool false)⟩) :=
  ⟨⟨rfl, by decide⟩,
   C10_store_failure_still_success "A" "1" qC10 envExn stC8 (fun n => rfl) (by decide)⟩
